import Mathlib

/-!
# drone-asm: reconciliation and status-recolouring engine

A shallow embedding of `main.go` of drone-asm.  Go slices are Lean lists, Go
`int` is `Int`, Go maps from strings are total functions into `Option`, and a
function that can panic returns `Option`.  The record types come from the
libraries go-lair, go-nessus and go-nmap; only the fields that `main.go`
touches (and the identification fields of a project) are kept.  The table
`top200ports` is declared outside `main.go` and is a parameter of the
functions that read it.
-/

set_option linter.dupNamespace false

namespace DroneAsm

/-! ## Data model -/

namespace lair

/-- Status constant `lair.StatusGrey` of go-lair (the "Flagged" state). -/
def StatusGrey : String := "lair-grey"

/-- Status constant `lair.StatusBlue` of go-lair (the "Reviewed" state). -/
def StatusBlue : String := "lair-blue"

/-- Status constant `lair.StatusGreen` of go-lair (the "Accepted" state). -/
def StatusGreen : String := "lair-green"

/-- Record `lair.IssueHost`: an affected-host record of an issue. -/
structure IssueHost where
  IPv4 : String
  Port : Int
  Protocol : String
  deriving DecidableEq, Repr

/-- Record `lair.Issue`. -/
structure Issue where
  Title : String
  Status : String
  Hosts : List IssueHost
  deriving DecidableEq, Repr

/-- Record `lair.Service`. -/
structure Service where
  Port : Int
  Protocol : String
  Status : String
  deriving DecidableEq, Repr

/-- Record `lair.Host`. -/
structure Host where
  IPv4 : String
  Status : String
  Services : List Service
  deriving DecidableEq, Repr

/-- Record `lair.Project`. -/
structure Project where
  ID : String
  Tool : String
  Hosts : List Host
  Issues : List Issue
  deriving DecidableEq, Repr

end lair

namespace nessus

/-- Record `nessus.ReportItem` of go-nessus. -/
structure ReportItem where
  Port : Int
  SvcName : String
  Protocol : String
  Severity : Int
  PluginID : String
  PluginName : String
  deriving DecidableEq, Repr

/-- The zero value `nessus.ReportItem{}`, used as the "consumed" sentinel. -/
def ReportItem.empty : ReportItem :=
  { Port := 0, SvcName := "", Protocol := "", Severity := 0, PluginID := "", PluginName := "" }

/-- Record `nessus.ReportHost`. -/
structure ReportHost where
  Name : String
  ReportItems : List ReportItem
  deriving DecidableEq, Repr

/-- Record `nessus.Report`. -/
structure Report where
  Name : String
  ReportHosts : List ReportHost
  deriving DecidableEq, Repr

/-- Record `nessus.NessusData`. -/
structure NessusData where
  Report : Report
  deriving DecidableEq, Repr

end nessus

namespace nmap

/-- Record `nmap.Address` of go-nmap. -/
structure Address where
  Addr : String
  AddrType : String
  deriving DecidableEq, Repr

/-- Record `nmap.State`. -/
structure State where
  State : String
  deriving DecidableEq, Repr

/-- Record `nmap.Port`. -/
structure Port where
  Protocol : String
  PortId : Int
  State : State
  deriving DecidableEq, Repr

/-- Record `nmap.Host`. -/
structure Host where
  Addresses : List Address
  Ports : List Port
  deriving DecidableEq, Repr

/-- The zero value `nmap.Host{}`. -/
def Host.empty : Host := { Addresses := [], Ports := [] }

/-- Record `nmap.NmapRun`. -/
structure NmapRun where
  Hosts : List Host
  deriving DecidableEq, Repr

end nmap

/-! ## Go library functions used by `main.go` -/

/-- The loop of Go's `sort.Search`: `for i < j { h := int(uint(i+j) >> 1); if !f(h) { i = h + 1 }
else { j = h } }; return i`.  The first argument bounds the number of iterations. -/
def searchLoop (f : Nat → Bool) : Nat → Nat → Nat → Nat
  | 0, i, _ => i
  | fuel + 1, i, j =>
    if i < j then
      let h := (i + j) / 2
      if !f h then searchLoop f fuel (h + 1) j else searchLoop f fuel i h
    else i

/-- Go's `sort.Search(n, f)`: binary search on `[0, n)`; `n` iterations always suffice. -/
def sort.Search (n : Nat) (f : Nat → Bool) : Nat := searchLoop f n 0 n

/-- Go's `sort.SearchInts(a, x)`, which is `sort.Search(len(a), func(i) { return a[i] >= x })`. -/
def sort.SearchInts (a : List Int) (x : Int) : Nat :=
  sort.Search a.length fun i => decide (a.getD i 0 ≥ x)

/-- Go's `sort.Ints`: sorts ascending (the sorted list is unique, whatever the algorithm). -/
def sort.Ints (a : List Int) : List Int := a.insertionSort (· ≤ ·)

/-- A Go `map[string][]int`. -/
abbrev PortMap := String → Option (List Int)

/-- The statement `m[key] = append(m[key], ports...)`. -/
def PortMap.append (m : PortMap) (key : String) (ports : List Int) : PortMap :=
  fun k => if k = key then some ((m k).getD [] ++ ports) else m k

/-- The loop `for _, ports := range m { sort.Ints(ports) }`. -/
def PortMap.sortAll (m : PortMap) : PortMap := fun k => (m k).map sort.Ints

/-! ## `makeProjectBlue` -/

open lair in
/-- The assignment guarded by `x.Status != lair.StatusBlue || x.Status != lair.StatusGreen`
in `makeProjectBlue`: the new value of the status field. -/
def blueStatus (status : String) : String :=
  if status ≠ StatusBlue ∨ status ≠ StatusGreen then StatusBlue else status

/-- First loop of `makeProjectBlue`, over `previous.Issues`. -/
def blueIssues (issues : List lair.Issue) : List lair.Issue :=
  issues.map fun issue => { issue with Status := blueStatus issue.Status }

/-- Inner loop of `makeProjectBlue`, over `host.Services`. -/
def blueServices (services : List lair.Service) : List lair.Service :=
  services.map fun service => { service with Status := blueStatus service.Status }

/-- Second loop of `makeProjectBlue`, over `previous.Hosts`. -/
def blueHosts (hosts : List lair.Host) : List lair.Host :=
  hosts.map fun host =>
    { host with Status := blueStatus host.Status, Services := blueServices host.Services }

/-- Function `makeProjectBlue` of `main.go`; the in-place update is returned. -/
def makeProjectBlue (previous : lair.Project) : lair.Project :=
  { previous with Issues := blueIssues previous.Issues, Hosts := blueHosts previous.Hosts }

/-! ## The dedup loop of `makeJSONFile` -/

/-- Loop `for _, previousHost := range issue.Hosts` of `makeJSONFile`, computing `notFound`. -/
def notFoundLoop (hostName : String) : List lair.IssueHost → Bool → Bool
  | [], notFound => notFound
  | previousHost :: rest, notFound =>
    notFoundLoop hostName rest (if hostName = previousHost.IPv4 then false else notFound)

/-- Body of `if item.PluginName == issue.Title` for one issue: the new `Issues[k]`. -/
def absorbHost (hostName : String) (item : nessus.ReportItem) (issue : lair.Issue) : lair.Issue :=
  if notFoundLoop hostName issue.Hosts true then
    { issue with Hosts := issue.Hosts ++
        [{ IPv4 := hostName, Port := item.Port, Protocol := item.Protocol }] }
  else issue

/-- Loop `for k, issue := range projectExport.Issues` of `makeJSONFile`.  `item` is the copy
taken by the enclosing `range`; the second component is `ReportItems[j]`. -/
def dedupIssues (hostName : String) (item : nessus.ReportItem) :
    List lair.Issue → nessus.ReportItem → List lair.Issue × nessus.ReportItem
  | [], slot => ([], slot)
  | issue :: rest, slot =>
    if item.PluginName = issue.Title then
      let r := dedupIssues hostName item rest nessus.ReportItem.empty
      (absorbHost hostName item issue :: r.1, r.2)
    else
      let r := dedupIssues hostName item rest slot
      (issue :: r.1, r.2)

/-- Loop `for j, item := range host.ReportItems` of `makeJSONFile`. -/
def dedupItems (hostName : String) :
    List nessus.ReportItem → List lair.Issue → List lair.Issue × List nessus.ReportItem
  | [], issues => (issues, [])
  | item :: rest, issues =>
    let r := dedupIssues hostName item issues item
    let r2 := dedupItems hostName rest r.1
    (r2.1, r.2 :: r2.2)

/-- Loop `for i, host := range nessusData.Report.ReportHosts` of `makeJSONFile`. -/
def dedupHosts :
    List nessus.ReportHost → List lair.Issue → List lair.Issue × List nessus.ReportHost
  | [], issues => (issues, [])
  | host :: rest, issues =>
    let r := dedupItems host.Name host.ReportItems issues
    let r2 := dedupHosts rest r.1
    (r2.1, { host with ReportItems := r.2 } :: r2.2)

/-- The dedup loop of `makeJSONFile` (lines 228-247): the updated export and Nessus data. -/
def makeJSONFileDedup (projectExport : lair.Project) (nessusData : nessus.NessusData) :
    lair.Project × nessus.NessusData :=
  let r := dedupHosts nessusData.Report.ReportHosts projectExport.Issues
  ({ projectExport with Issues := r.1 },
   { nessusData with Report := { nessusData.Report with ReportHosts := r.2 } })

/-! ## `sameVulnNewHostCheck` -/

/-- Loop `for _, previousHost := range previousIssue.Hosts` with its `break`:
the new `host.ReportItems[i]`. -/
def vulnHostLoop (hostName : String) :
    List lair.IssueHost → nessus.ReportItem → nessus.ReportItem
  | [], slot => slot
  | previousHost :: rest, slot =>
    if previousHost.IPv4 = hostName then nessus.ReportItem.empty
    else vulnHostLoop hostName rest slot

/-- Loop `for _, previousIssue := range previous.Issues` with its `break`. -/
def vulnIssueLoop (hostName : String) (reportItem : nessus.ReportItem) :
    List lair.Issue → nessus.ReportItem → nessus.ReportItem
  | [], slot => slot
  | previousIssue :: rest, slot =>
    if previousIssue.Title = reportItem.PluginName then
      vulnHostLoop hostName previousIssue.Hosts slot
    else vulnIssueLoop hostName reportItem rest slot

/-- Function `sameVulnNewHostCheck` of `main.go`; the updated Nessus data is returned. -/
def sameVulnNewHostCheck (previous : lair.Project) (nessusData : nessus.NessusData) :
    nessus.NessusData :=
  { nessusData with Report := { nessusData.Report with
      ReportHosts := nessusData.Report.ReportHosts.map fun host =>
        { host with ReportItems := host.ReportItems.map fun reportItem =>
            vulnIssueLoop host.Name reportItem previous.Issues reportItem } } }

/-! ## Port classifier and `portCheck` -/

/-- Function `isTop200Nmap` of `main.go`; `top200ports` is the package-level table. -/
def isTop200Nmap (top200ports : List Int) (port : nmap.Port) : Bool :=
  let x := port.PortId
  let i := sort.Search top200ports.length fun i => decide (top200ports.getD i 0 ≥ x)
  if i < top200ports.length ∧ top200ports.getD i 0 = x ∧ port.State.State = "open" then true
  else false

/-- Function `isTop200Lair` of `main.go`. -/
def isTop200Lair (top200ports : List Int) (service : lair.Service) : Bool :=
  let x := service.Port
  let i := sort.Search top200ports.length fun i => decide (top200ports.getD i 0 ≥ x)
  if i < top200ports.length ∧ top200ports.getD i 0 = x then true else false

/-- Record `recolor` of `main.go`. -/
structure recolor where
  hosts : List String
  service : PortMap

/-- Body of `for _, previousService := range previousHost.Services`: the state is
`uniquePorts` (a set, kept as a duplicate-free list) and `previousHostAllPorts`. -/
def serviceStep (top200ports : List Int) (ipv4 : String) (st : List Int × PortMap)
    (previousService : lair.Service) : List Int × PortMap :=
  (if isTop200Lair top200ports previousService then
      (if previousService.Port ∈ st.1 then st.1 else st.1 ++ [previousService.Port])
    else st.1,
   st.2.append ipv4 [previousService.Port])

/-- Body of `for _, previousHost := range previous.Hosts`: the state is
`previousHostTopPorts` and `previousHostAllPorts`. -/
def previousHostStep (top200ports : List Int) (st : PortMap × PortMap)
    (previousHost : lair.Host) : PortMap × PortMap :=
  let r := previousHost.Services.foldl (serviceStep top200ports previousHost.IPv4) ([], st.2)
  (r.1.foldl (fun m port => m.append previousHost.IPv4 [port]) st.1, r.2)

/-- Lines 376-395 of `portCheck`: the sorted maps `previousHostTopPorts` and
`previousHostAllPorts`. -/
def previousPorts (top200ports : List Int) (previous : lair.Project) : PortMap × PortMap :=
  let r := previous.Hosts.foldl (previousHostStep top200ports) (fun _ => none, fun _ => none)
  (r.1.sortAll, r.2.sortAll)

/-- Loop `for _, newPort := range newTop200` with its `break`: the new `foundNewPort`. -/
def topPortLoop (oldPorts : List Int) : List Int → Bool → Bool
  | [], foundNewPort => foundNewPort
  | newPort :: rest, foundNewPort =>
    if oldPorts.length = sort.SearchInts oldPorts newPort then true
    else topPortLoop oldPorts rest foundNewPort

/-- Loop `for _, newPort := range host.Ports` with its `continue` and `break`: the state is
`foundNewPort` and `reco.hosts`. -/
def allPortLoop (addr : String) (oldAllPorts : List Int) :
    List nmap.Port → Bool × List String → Bool × List String
  | [], st => st
  | newPort :: rest, st =>
    if newPort.State.State ≠ "open" then allPortLoop addr oldAllPorts rest st
    else if oldAllPorts.length = sort.SearchInts oldAllPorts newPort.PortId ∧ st.1 = false then
      (true, st.2 ++ [addr])
    else allPortLoop addr oldAllPorts rest st

/-- State of the loop over `host.Addresses`: `foundNewPort` and `reco`. -/
structure CheckState where
  foundNewPort : Bool
  reco : recolor

/-- Body of `for _, address := range host.Addresses`. -/
def addressStep (prevTop prevAll : PortMap) (ports : List nmap.Port) (newTop200 : List Int)
    (st : CheckState) (address : nmap.Address) : CheckState :=
  let found :=
    match prevTop address.Addr with
    | some oldPorts => topPortLoop oldPorts newTop200 st.foundNewPort
    | none => true
  match prevAll address.Addr with
  | some oldAllPorts =>
    let r := allPortLoop address.Addr oldAllPorts ports (found, st.reco.hosts)
    { foundNewPort := r.1,
      reco := { hosts := r.2, service := st.reco.service.append address.Addr oldAllPorts } }
  | none => { foundNewPort := found, reco := st.reco }

/-- The work on one fresh host entry up to the test `if !foundNewPort`. -/
def checkHost (top200ports : List Int) (prevTop prevAll : PortMap) (reco : recolor)
    (host : nmap.Host) : CheckState :=
  let newTop200 := (host.Ports.filter (isTop200Nmap top200ports)).map (·.PortId)
  host.Addresses.foldl (addressStep prevTop prevAll host.Ports newTop200)
    { foundNewPort := false, reco := reco }

/-- Loop `for i, host := range nmapData.Hosts`: `none` is the index-out-of-range panic of
`host.Addresses[0]`, otherwise `reco` and the new `nmapData.Hosts`. -/
def hostsLoop (top200ports : List Int) (prevTop prevAll : PortMap) :
    List nmap.Host → recolor → Option (recolor × List nmap.Host)
  | [], reco => some (reco, [])
  | host :: rest, reco =>
    let r := checkHost top200ports prevTop prevAll reco host
    if !r.foundNewPort then
      match host.Addresses with
      | [] => none
      | _ :: _ =>
        (hostsLoop top200ports prevTop prevAll rest r.reco).map
          fun x => (x.1, nmap.Host.empty :: x.2)
    else
      (hostsLoop top200ports prevTop prevAll rest r.reco).map fun x => (x.1, host :: x.2)

/-- Function `portCheck` of `main.go`, with the table `top200ports` as a parameter. -/
def portCheck (top200ports : List Int) (previous : lair.Project) (nmapData : nmap.NmapRun) :
    Option (recolor × nmap.NmapRun) :=
  let prev := previousPorts top200ports previous
  (hostsLoop top200ports prev.1 prev.2 nmapData.Hosts
      { hosts := [], service := fun _ => none }).map
    fun x => (x.1, { nmapData with Hosts := x.2 })

/-! ## Vocabulary of the statements -/

/-- The addresses of the affected-host records of an issue. -/
def issueAddrs (issue : lair.Issue) : List String := issue.Hosts.map (·.IPv4)

/-- A report host has at least one report item whose `PluginName` is `title`. -/
def hostHasTitle (title : String) (host : nessus.ReportHost) : Bool :=
  host.ReportItems.any fun item => decide (item.PluginName = title)

/-- The distinct report-host names that have at least one report item whose `PluginName` is
the title of `issue` and that are not the address of any record of `issue`. -/
def newHostNames (issue : lair.Issue) (nessusData : nessus.NessusData) : List String :=
  (((nessusData.Report.ReportHosts.filter (hostHasTitle issue.Title)).map (·.Name)).dedup).filter
    fun name => decide (name ∉ issueAddrs issue)

/-- The titles of the issues of a project. -/
def issueTitles (previous : lair.Project) : List String := previous.Issues.map (·.Title)

/-- The effect of one observation `(hostName, item)` on one issue in the dedup loop of
`makeJSONFile`. -/
def absorbStep (hostName : String) (item : nessus.ReportItem) (issue : lair.Issue) : lair.Issue :=
  if item.PluginName = issue.Title then absorbHost hostName item issue else issue

/-- The effect of the report items of one report host on one issue. -/
def absorbItems (hostName : String) (items : List nessus.ReportItem) (issue : lair.Issue) :
    lair.Issue :=
  items.foldl (fun acc item => absorbStep hostName item acc) issue

/-- The effect of all report hosts on one issue. -/
def absorbReport (hosts : List nessus.ReportHost) (issue : lair.Issue) : lair.Issue :=
  hosts.foldl (fun acc host => absorbItems host.Name host.ReportItems acc) issue

/-- The residual of a report item given the titles of the prior issues: the empty sentinel
when the `PluginName` of the item is one of the titles, the item itself otherwise. -/
def residualItem (titles : List String) (item : nessus.ReportItem) : nessus.ReportItem :=
  if item.PluginName ∈ titles then nessus.ReportItem.empty else item

/-- The residual of a report host: every item replaced by its residual, in place. -/
def residualHost (titles : List String) (host : nessus.ReportHost) : nessus.ReportHost :=
  { host with ReportItems := host.ReportItems.map (residualItem titles) }

/-- Some prior issue has the `PluginName` of `item` as title and has an affected-host record
whose address is `hostName`. -/
def knownForHost (previous : lair.Project) (hostName : String) (item : nessus.ReportItem) :
    Bool :=
  previous.Issues.any fun issue =>
    decide (issue.Title = item.PluginName) && decide (hostName ∈ issueAddrs issue)

/-- The residual of a report item in `sameVulnNewHostCheck`, as the specification words it:
the empty sentinel when the observation is already known for the host, the item otherwise. -/
def vulnResidual (previous : lair.Project) (hostName : String) (item : nessus.ReportItem) :
    nessus.ReportItem :=
  if knownForHost previous hostName item then nessus.ReportItem.empty else item

/-- The port numbers recorded for address `a` in the prior snapshot: the ports of the
services of the prior hosts whose address is `a`, in that order, duplicates included. -/
def recordedPorts (previous : lair.Project) (a : String) : List Int :=
  (previous.Hosts.filter fun host => decide (host.IPv4 = a)).flatMap
    fun host => host.Services.map (·.Port)

/-- The addresses that a fresh scan lists, over all its host entries, in order. -/
def scanAddrs (nmapData : nmap.NmapRun) : List String :=
  nmapData.Hosts.flatMap fun host => host.Addresses.map (·.Addr)

/-- Some port of `ports` is open and the binary search places it after every port of
`oldAllPorts`: the test under which `portCheck` reports a new port. -/
def hasNewPort (oldAllPorts : List Int) (ports : List nmap.Port) : Bool :=
  ports.any fun newPort =>
    decide (newPort.State.State = "open") &&
      decide (oldAllPorts.length = sort.SearchInts oldAllPorts newPort.PortId)

/-- The value of `foundNewPort` with which `portCheck` leaves a fresh host entry. -/
def keepsEntry (top200ports : List Int) (prevTop prevAll : PortMap) (host : nmap.Host) : Bool :=
  (checkHost top200ports prevTop prevAll { hosts := [], service := fun _ => none }
    host).foundNewPort

/-- The value of `reco` after `portCheck` has gone through the given fresh host entries. -/
def recoAfter (top200ports : List Int) (prevTop prevAll : PortMap) (hosts : List nmap.Host)
    (reco : recolor) : recolor :=
  hosts.foldl (fun r host => (checkHost top200ports prevTop prevAll r host).reco) reco

/-- The fresh host entry as `portCheck` leaves it in `nmapData.Hosts`: itself when new
exposure was flagged, the zero value otherwise. -/
def residualEntry (top200ports : List Int) (prevTop prevAll : PortMap) (host : nmap.Host) :
    nmap.Host :=
  if keepsEntry top200ports prevTop prevAll host then host else nmap.Host.empty

/-- The value of a map entry after `c` statements `m[key] = append(m[key], old...)`. -/
def appendCopies (old : List Int) (c : Nat) (entry : Option (List Int)) : Option (List Int) :=
  if c = 0 then entry else some (entry.getD [] ++ (List.replicate c old).flatten)

/-- The membership test of the port classifier as the specification words it for snapshot
services: a plain linear scan of the reference list for `service.Port`. -/
def isTop200LairLinear : List Int → lair.Service → Bool
  | [], _ => false
  | port :: rest, service =>
    if port = service.Port then true else isTop200LairLinear rest service

/-- Function `portCheck` as a transformer of the two objects it receives by pointer: the
result, `*previous` and `*nmapData` afterwards.  `main.go` has no assignment through
`previous`, so `*previous` is handed back as it came. -/
def portCheckRun (top200ports : List Int) (st : lair.Project × nmap.NmapRun) :
    Option (recolor × (lair.Project × nmap.NmapRun)) :=
  (portCheck top200ports st.1 st.2).map fun x => (x.1, (st.1, x.2))

/-! ## Recolour pass: theorems -/

open lair

theorem blueStatus_eq (status : String) : blueStatus status = StatusBlue := by
  unfold blueStatus
  split
  · rfl
  · rename_i h
    push_neg at h
    exact absurd (h.1.symm.trans h.2) (by decide)

/-- C1: an issue whose status is Accepted (`lair.StatusGreen`) before `makeProjectBlue`
has status `lair.StatusBlue` afterwards, so Accepted is not preserved. -/
theorem makeProjectBlue_overwrites_green :
    (makeProjectBlue
        { ID := "old", Tool := "",
          Hosts := [{ IPv4 := "10.0.0.5", Status := StatusGreen,
                      Services := [{ Port := 443, Protocol := "tcp", Status := StatusGreen }] }],
          Issues := [{ Title := "Outdated TLS", Status := StatusGreen, Hosts := [] }] })
      = { ID := "old", Tool := "",
          Hosts := [{ IPv4 := "10.0.0.5", Status := StatusBlue,
                      Services := [{ Port := 443, Protocol := "tcp", Status := StatusBlue }] }],
          Issues := [{ Title := "Outdated TLS", Status := StatusBlue, Hosts := [] }] } := by
  decide

/-- C10: after `makeProjectBlue` no issue, no host and no service of any host has
status Flagged (`lair.StatusGrey`). -/
theorem makeProjectBlue_no_grey (previous : lair.Project) :
    (∀ issue ∈ (makeProjectBlue previous).Issues, issue.Status ≠ StatusGrey) ∧
    (∀ host ∈ (makeProjectBlue previous).Hosts, host.Status ≠ StatusGrey ∧
      ∀ service ∈ host.Services, service.Status ≠ StatusGrey) := by
  have hne : StatusBlue ≠ StatusGrey := by decide
  refine ⟨?_, ?_⟩
  · intro issue hmem
    simp only [makeProjectBlue, blueIssues, List.mem_map] at hmem
    obtain ⟨i0, -, rfl⟩ := hmem
    simpa [blueStatus_eq] using hne
  · intro host hmem
    simp only [makeProjectBlue, blueHosts, List.mem_map] at hmem
    obtain ⟨h0, -, rfl⟩ := hmem
    refine ⟨by simpa [blueStatus_eq] using hne, ?_⟩
    intro service hs
    simp only [blueServices, List.mem_map] at hs
    obtain ⟨s0, -, rfl⟩ := hs
    simpa [blueStatus_eq] using hne

/-! ## Finding deduplicator: theorems -/

theorem notFoundLoop_eq (hostName : String) (hosts : List lair.IssueHost) (b : Bool) :
    notFoundLoop hostName hosts b = (b && decide (hostName ∉ hosts.map (·.IPv4))) := by
  induction hosts generalizing b with
  | nil => simp [notFoundLoop]
  | cons h rest ih =>
    simp only [notFoundLoop, ih, List.map_cons, List.mem_cons, not_or]
    by_cases hh : hostName = h.IPv4 <;> simp [hh]

theorem absorbHost_title (hostName : String) (item : nessus.ReportItem) (issue : lair.Issue) :
    (absorbHost hostName item issue).Title = issue.Title := by
  unfold absorbHost; split <;> rfl

theorem absorbHost_of_mem (hostName : String) (item : nessus.ReportItem) (issue : lair.Issue)
    (h : hostName ∈ issueAddrs issue) : absorbHost hostName item issue = issue := by
  have hd : notFoundLoop hostName issue.Hosts true = false := by
    rw [notFoundLoop_eq]
    simpa [issueAddrs] using h
  simp [absorbHost, hd]

theorem absorbHost_of_not_mem (hostName : String) (item : nessus.ReportItem)
    (issue : lair.Issue) (h : hostName ∉ issueAddrs issue) :
    absorbHost hostName item issue =
      { issue with Hosts := issue.Hosts ++
          [{ IPv4 := hostName, Port := item.Port, Protocol := item.Protocol }] } := by
  have hd : notFoundLoop hostName issue.Hosts true = true := by
    rw [notFoundLoop_eq]
    simpa [issueAddrs] using h
  simp [absorbHost, hd]

theorem mem_issueAddrs_absorbHost (hostName : String) (item : nessus.ReportItem)
    (issue : lair.Issue) : hostName ∈ issueAddrs (absorbHost hostName item issue) := by
  by_cases h : hostName ∈ issueAddrs issue
  · rw [absorbHost_of_mem _ _ _ h]; exact h
  · rw [absorbHost_of_not_mem _ _ _ h]; simp [issueAddrs]

/-- The effect of one observation on one issue (body of the loop over `k`). -/
theorem dedupIssues_fst (hostName : String) (item : nessus.ReportItem)
    (issues : List lair.Issue) (slot : nessus.ReportItem) :
    (dedupIssues hostName item issues slot).1 = issues.map (absorbStep hostName item) := by
  induction issues generalizing slot with
  | nil => rfl
  | cons issue rest ih =>
    by_cases h : item.PluginName = issue.Title
    · simp [dedupIssues, absorbStep, h, ih]
    · simp [dedupIssues, absorbStep, h, ih]

theorem dedupIssues_snd (hostName : String) (item : nessus.ReportItem)
    (issues : List lair.Issue) (slot : nessus.ReportItem) :
    (dedupIssues hostName item issues slot).2 =
      if item.PluginName ∈ issues.map (·.Title) then nessus.ReportItem.empty else slot := by
  induction issues generalizing slot with
  | nil => rfl
  | cons issue rest ih =>
    by_cases h : item.PluginName = issue.Title
    · simp only [dedupIssues, h, if_true, ih]
      simp
    · simp only [dedupIssues, h, if_false, ih]
      simp [h]

theorem absorbStep_title (hostName : String) (item : nessus.ReportItem) (issue : lair.Issue) :
    (absorbStep hostName item issue).Title = issue.Title := by
  unfold absorbStep; split
  · exact absorbHost_title _ _ _
  · rfl

theorem dedupItems_fst (hostName : String) (items : List nessus.ReportItem)
    (issues : List lair.Issue) :
    (dedupItems hostName items issues).1 = issues.map (absorbItems hostName items) := by
  induction items generalizing issues with
  | nil => exact (List.map_id' issues).symm
  | cons item rest ih =>
    simp only [dedupItems, ih, dedupIssues_fst, List.map_map]
    rfl

theorem dedupHosts_fst (hosts : List nessus.ReportHost) (issues : List lair.Issue) :
    (dedupHosts hosts issues).1 = issues.map (absorbReport hosts) := by
  induction hosts generalizing issues with
  | nil => exact (List.map_id' issues).symm
  | cons host rest ih =>
    simp only [dedupHosts, ih, dedupItems_fst, List.map_map]
    rfl

theorem absorbItems_title (hostName : String) (items : List nessus.ReportItem)
    (issue : lair.Issue) : (absorbItems hostName items issue).Title = issue.Title := by
  induction items generalizing issue with
  | nil => rfl
  | cons item rest ih =>
    show (absorbItems hostName rest (absorbStep hostName item issue)).Title = _
    rw [ih, absorbStep_title]

theorem absorbItems_of_mem (hostName : String) (items : List nessus.ReportItem)
    (issue : lair.Issue) (h : hostName ∈ issueAddrs issue) :
    absorbItems hostName items issue = issue := by
  induction items with
  | nil => rfl
  | cons item rest ih =>
    show absorbItems hostName rest (absorbStep hostName item issue) = _
    have : absorbStep hostName item issue = issue := by
      unfold absorbStep; split
      · exact absorbHost_of_mem _ _ _ h
      · rfl
    rw [this, ih]

/-- The report items of one host change an issue at most once: by the first item that
carries the title of the issue. -/
theorem absorbItems_eq (hostName : String) (items : List nessus.ReportItem)
    (issue : lair.Issue) :
    absorbItems hostName items issue =
      match items.find? (fun item => decide (item.PluginName = issue.Title)) with
      | some item => absorbHost hostName item issue
      | none => issue := by
  induction items with
  | nil => rfl
  | cons item rest ih =>
    show absorbItems hostName rest (absorbStep hostName item issue) = _
    by_cases h : item.PluginName = issue.Title
    · have h1 : absorbStep hostName item issue = absorbHost hostName item issue := by
        simp [absorbStep, h]
      rw [h1, absorbItems_of_mem _ _ _ (mem_issueAddrs_absorbHost _ _ _)]
      simp [List.find?, h]
    · have h1 : absorbStep hostName item issue = issue := by simp [absorbStep, h]
      rw [h1, ih]
      simp [List.find?, h]

theorem hostHasTitle_iff_find (title : String) (host : nessus.ReportHost) :
    hostHasTitle title host = true ↔
      ∃ item, host.ReportItems.find? (fun item => decide (item.PluginName = title)) = some item := by
  unfold hostHasTitle
  rw [← Option.isSome_iff_exists, List.find?_isSome]
  simp

/-- What the report items of one report host do to the records of one issue. -/
theorem absorbItems_hosts (host : nessus.ReportHost) (issue : lair.Issue) :
    (hostHasTitle issue.Title host = true ∧ host.Name ∉ issueAddrs issue ∧
      ∃ item ∈ host.ReportItems, item.PluginName = issue.Title ∧
        (absorbItems host.Name host.ReportItems issue).Hosts = issue.Hosts ++
          [{ IPv4 := host.Name, Port := item.Port, Protocol := item.Protocol }]) ∨
    ((hostHasTitle issue.Title host = false ∨ host.Name ∈ issueAddrs issue) ∧
      absorbItems host.Name host.ReportItems issue = issue) := by
  rw [absorbItems_eq]
  cases hf : host.ReportItems.find? (fun item => decide (item.PluginName = issue.Title)) with
  | none =>
    right
    refine ⟨Or.inl ?_, rfl⟩
    cases hb : hostHasTitle issue.Title host with
    | false => rfl
    | true =>
      obtain ⟨item, hi⟩ := (hostHasTitle_iff_find _ _).1 hb
      rw [hf] at hi
      cases hi
  | some item =>
    have hb : hostHasTitle issue.Title host = true := (hostHasTitle_iff_find _ _).2 ⟨item, hf⟩
    by_cases hm : host.Name ∈ issueAddrs issue
    · right
      exact ⟨Or.inr hm, absorbHost_of_mem _ _ _ hm⟩
    · left
      refine ⟨hb, hm, item, List.mem_of_find?_eq_some hf, ?_, ?_⟩
      · simpa using List.find?_some hf
      · show (absorbHost host.Name item issue).Hosts = _
        rw [absorbHost_of_not_mem _ _ _ hm]

theorem absorbReport_title (hosts : List nessus.ReportHost) (issue : lair.Issue) :
    (absorbReport hosts issue).Title = issue.Title := by
  induction hosts generalizing issue with
  | nil => rfl
  | cons host rest ih =>
    show (absorbReport rest (absorbItems host.Name host.ReportItems issue)).Title = _
    rw [ih, absorbItems_title]

theorem card_insert_sdiff_step (n : String) (S I : Finset String) (h : n ∉ I) :
    (insert n S \ I).card = (S \ insert n I).card + 1 := by
  rw [Finset.insert_sdiff_of_not_mem _ h, Finset.sdiff_insert]
  by_cases hn : n ∈ S \ I
  · rw [Finset.insert_eq_of_mem hn, Finset.card_erase_add_one hn]
  · rw [Finset.card_insert_of_not_mem hn, Finset.erase_eq_of_not_mem hn]

/-- Number of records of an issue after all report hosts have been processed. -/
theorem absorbReport_length (hosts : List nessus.ReportHost) (issue : lair.Issue) :
    (absorbReport hosts issue).Hosts.length = issue.Hosts.length +
      (((hosts.filter (hostHasTitle issue.Title)).map (·.Name)).toFinset \
        (issueAddrs issue).toFinset).card := by
  induction hosts generalizing issue with
  | nil => simp [absorbReport]
  | cons host rest ih =>
    show (absorbReport rest (absorbItems host.Name host.ReportItems issue)).Hosts.length = _
    rw [ih, absorbItems_title]
    rcases absorbItems_hosts host issue with ⟨hb, hm, item, -, -, hh⟩ | ⟨hc, he⟩
    · have ha : issueAddrs (absorbItems host.Name host.ReportItems issue) =
          issueAddrs issue ++ [host.Name] := by
        simp [issueAddrs, hh]
      have hI : (issueAddrs issue ++ [host.Name]).toFinset =
          insert host.Name (issueAddrs issue).toFinset := by
        ext x; simp [or_comm]
      rw [hh, ha, hI, List.filter_cons_of_pos hb, List.map_cons, List.toFinset_cons,
        card_insert_sdiff_step _ _ _ (by simpa using hm)]
      simp only [List.length_append, List.length_singleton]
      omega
    · rw [he]
      rcases hc with hc | hc
      · rw [List.filter_cons_of_neg (by simp [hc])]
      · by_cases hb : hostHasTitle issue.Title host = true
        · rw [List.filter_cons_of_pos hb, List.map_cons, List.toFinset_cons,
            Finset.insert_sdiff_of_mem _ (by simpa using hc)]
        · rw [List.filter_cons_of_neg hb]

theorem card_sdiff_eq_length (names addrs : List String) :
    (names.toFinset \ addrs.toFinset).card =
      (names.dedup.filter fun name => decide (name ∉ addrs)).length := by
  have hnd : (names.dedup.filter fun name => decide (name ∉ addrs)).Nodup :=
    (List.nodup_dedup names).filter _
  rw [← List.toFinset_card_of_nodup hnd]
  congr 1
  ext x
  simp

/-- C4: after the dedup loop of `makeJSONFile`, every prior issue has its prior number of
affected-host records plus the number of distinct report-host names that have an item with
the title of the issue and are not the address of a prior record of the issue. -/
theorem makeJSONFile_dedup_conservation (projectExport : lair.Project)
    (nessusData : nessus.NessusData) :
    (makeJSONFileDedup projectExport nessusData).1.Issues.map (fun issue => issue.Hosts.length) =
      projectExport.Issues.map fun issue =>
        issue.Hosts.length + (newHostNames issue nessusData).length := by
  simp only [makeJSONFileDedup, dedupHosts_fst, List.map_map]
  apply List.map_congr_left
  intro issue _
  simp only [Function.comp, absorbReport_length, newHostNames, card_sdiff_eq_length]

/-- The "Outdated TLS" scenario of C4: the prior record for 10.0.0.5 absorbs the fresh
observation for 10.0.0.5, and exactly one record, for 10.0.0.9, is appended. -/
theorem makeJSONFile_dedup_outdated_tls :
    (makeJSONFileDedup
        { ID := "old", Tool := "", Hosts := [],
          Issues := [{ Title := "Outdated TLS", Status := StatusGrey,
                       Hosts := [{ IPv4 := "10.0.0.5", Port := 443, Protocol := "tcp" }] }] }
        { Report := { Name := "scan", ReportHosts :=
            [{ Name := "10.0.0.5", ReportItems :=
                [{ Port := 443, SvcName := "www", Protocol := "tcp", Severity := 2,
                   PluginID := "1", PluginName := "Outdated TLS" }] },
             { Name := "10.0.0.9", ReportItems :=
                [{ Port := 443, SvcName := "www", Protocol := "tcp", Severity := 2,
                   PluginID := "1", PluginName := "Outdated TLS" }] }] } })
      = ({ ID := "old", Tool := "", Hosts := [],
           Issues := [{ Title := "Outdated TLS", Status := StatusGrey,
                        Hosts := [{ IPv4 := "10.0.0.5", Port := 443, Protocol := "tcp" },
                                  { IPv4 := "10.0.0.9", Port := 443, Protocol := "tcp" }] }] },
         { Report := { Name := "scan", ReportHosts :=
            [{ Name := "10.0.0.5", ReportItems := [nessus.ReportItem.empty] },
             { Name := "10.0.0.9", ReportItems := [nessus.ReportItem.empty] }] } }) := by
  decide

theorem dedupIssues_titles (hostName : String) (item : nessus.ReportItem)
    (issues : List lair.Issue) (slot : nessus.ReportItem) :
    (dedupIssues hostName item issues slot).1.map (·.Title) = issues.map (·.Title) := by
  rw [dedupIssues_fst, List.map_map]
  apply List.map_congr_left
  intro issue _
  exact absorbStep_title _ _ _

theorem dedupItems_snd (hostName : String) (items : List nessus.ReportItem)
    (issues : List lair.Issue) :
    (dedupItems hostName items issues).2 = items.map (residualItem (issues.map (·.Title))) := by
  induction items generalizing issues with
  | nil => rfl
  | cons item rest ih =>
    simp only [dedupItems, ih, dedupIssues_snd, dedupIssues_titles, List.map_cons]
    rfl

theorem dedupItems_titles (hostName : String) (items : List nessus.ReportItem)
    (issues : List lair.Issue) :
    (dedupItems hostName items issues).1.map (·.Title) = issues.map (·.Title) := by
  rw [dedupItems_fst, List.map_map]
  apply List.map_congr_left
  intro issue _
  exact absorbItems_title _ _ _

theorem dedupHosts_snd (hosts : List nessus.ReportHost) (issues : List lair.Issue) :
    (dedupHosts hosts issues).2 = hosts.map (residualHost (issues.map (·.Title))) := by
  induction hosts generalizing issues with
  | nil => rfl
  | cons host rest ih =>
    simp only [dedupHosts, ih, dedupItems_snd, dedupItems_titles, List.map_cons]
    rfl

/-- C5: the dedup loop of `makeJSONFile` keeps the number of report hosts and of items per
report host; the item at each position becomes the empty sentinel when its `PluginName` is the
title of a prior issue and is unchanged otherwise; so no non-empty residual item carries a
title of the prior project. -/
theorem makeJSONFile_dedup_residual (projectExport : lair.Project)
    (nessusData : nessus.NessusData) :
    (makeJSONFileDedup projectExport nessusData).2.Report.ReportHosts =
        nessusData.Report.ReportHosts.map (residualHost (issueTitles projectExport)) ∧
    (makeJSONFileDedup projectExport nessusData).2.Report.ReportHosts.map
        (fun host => (host.Name, host.ReportItems.length)) =
      nessusData.Report.ReportHosts.map (fun host => (host.Name, host.ReportItems.length)) ∧
    ∀ host ∈ (makeJSONFileDedup projectExport nessusData).2.Report.ReportHosts,
      ∀ item ∈ host.ReportItems, item ≠ nessus.ReportItem.empty →
        item.PluginName ∉ issueTitles projectExport := by
  have h1 : (makeJSONFileDedup projectExport nessusData).2.Report.ReportHosts =
      nessusData.Report.ReportHosts.map (residualHost (issueTitles projectExport)) := by
    simp only [makeJSONFileDedup, dedupHosts_snd, issueTitles]
  refine ⟨h1, ?_, ?_⟩
  · rw [h1, List.map_map]
    apply List.map_congr_left
    intro host _
    simp [residualHost]
  · intro host hmem item hitem hne
    rw [h1, List.mem_map] at hmem
    obtain ⟨host0, -, rfl⟩ := hmem
    simp only [residualHost, List.mem_map] at hitem
    obtain ⟨item0, -, rfl⟩ := hitem
    unfold residualItem at hne ⊢
    split
    · rename_i hin; simp [hin] at hne
    · assumption


theorem vulnHostLoop_eq (hostName : String) (hosts : List lair.IssueHost)
    (slot : nessus.ReportItem) :
    vulnHostLoop hostName hosts slot =
      if hostName ∈ hosts.map (·.IPv4) then nessus.ReportItem.empty else slot := by
  induction hosts with
  | nil => rfl
  | cons h rest ih =>
    by_cases hh : h.IPv4 = hostName
    · simp [vulnHostLoop, hh]
    · have hh2 : ¬ hostName = h.IPv4 := fun e => hh e.symm
      simp [vulnHostLoop, hh, hh2, ih]

theorem vulnIssueLoop_eq (hostName : String) (item : nessus.ReportItem)
    (issues : List lair.Issue) (slot : nessus.ReportItem)
    (hnd : (issues.map (·.Title)).Nodup) :
    vulnIssueLoop hostName item issues slot =
      if (issues.any fun issue =>
          decide (issue.Title = item.PluginName) && decide (hostName ∈ issueAddrs issue)) = true
      then nessus.ReportItem.empty else slot := by
  induction issues with
  | nil => rfl
  | cons issue rest ih =>
    rw [List.map_cons, List.nodup_cons] at hnd
    by_cases h : issue.Title = item.PluginName
    · have hrest : (rest.any fun issue =>
          decide (issue.Title = item.PluginName) && decide (hostName ∈ issueAddrs issue))
          = false := by
        rw [List.any_eq_false]
        intro x hx
        have : x.Title ≠ item.PluginName := by
          intro e
          exact hnd.1 (List.mem_map.2 ⟨x, hx, e.trans h.symm⟩)
        simp [this]
      simp only [vulnIssueLoop, h, if_true, vulnHostLoop_eq, List.any_cons, hrest,
        Bool.or_false, decide_True, Bool.true_and, decide_eq_true_eq]
      rfl
    · simp only [vulnIssueLoop, h, if_false, ih hnd.2, List.any_cons, decide_False,
        Bool.false_and, Bool.false_or]

/-- C6, at a concrete input: a report item that is already the zero value is the empty
sentinel after `sameVulnNewHostCheck` although no prior issue has its `PluginName` as title. -/
theorem sameVulnNewHostCheck_zero_item_stays :
    (issueTitles
        { ID := "old", Tool := "", Hosts := [],
          Issues := [{ Title := "Outdated TLS", Status := StatusGrey,
                       Hosts := [{ IPv4 := "10.0.0.5", Port := 443, Protocol := "tcp" }] }] }).Nodup ∧
    (sameVulnNewHostCheck
        { ID := "old", Tool := "", Hosts := [],
          Issues := [{ Title := "Outdated TLS", Status := StatusGrey,
                       Hosts := [{ IPv4 := "10.0.0.5", Port := 443, Protocol := "tcp" }] }] }
        { Report := { Name := "scan", ReportHosts :=
            [{ Name := "10.0.0.9", ReportItems :=
                [{ Port := 443, SvcName := "www", Protocol := "tcp", Severity := 2,
                   PluginID := "1", PluginName := "Outdated TLS" },
                 nessus.ReportItem.empty] }] } }).Report.ReportHosts
      = [{ Name := "10.0.0.9", ReportItems :=
            [{ Port := 443, SvcName := "www", Protocol := "tcp", Severity := 2,
               PluginID := "1", PluginName := "Outdated TLS" },
             nessus.ReportItem.empty] }] ∧
    ¬ ∃ issue ∈ [({ Title := "Outdated TLS", Status := StatusGrey,
                    Hosts := [{ IPv4 := "10.0.0.5", Port := 443, Protocol := "tcp" }] } :
                  lair.Issue)],
        issue.Title = nessus.ReportItem.empty.PluginName ∧ "10.0.0.9" ∈ issueAddrs issue := by
  decide

/-- C6, amended: when the issue titles of the prior project are unique,
`sameVulnNewHostCheck` keeps every report item at its position, replaces it by the empty
sentinel when some prior issue has its `PluginName` as title and a record for the report
host, and leaves it identical otherwise; for an item that is not already the zero value the
result is the sentinel exactly in the first case. -/
theorem sameVulnNewHostCheck_residual (previous : lair.Project)
    (nessusData : nessus.NessusData) (hnd : (issueTitles previous).Nodup) :
    (sameVulnNewHostCheck previous nessusData).Report.ReportHosts =
        nessusData.Report.ReportHosts.map (fun host =>
          { host with ReportItems := host.ReportItems.map (vulnResidual previous host.Name) }) ∧
    ∀ host ∈ nessusData.Report.ReportHosts, ∀ item ∈ host.ReportItems,
      item ≠ nessus.ReportItem.empty →
        (vulnResidual previous host.Name item = nessus.ReportItem.empty ↔
          ∃ issue ∈ previous.Issues,
            issue.Title = item.PluginName ∧ host.Name ∈ issueAddrs issue) := by
  refine ⟨?_, ?_⟩
  · simp only [sameVulnNewHostCheck]
    apply List.map_congr_left
    intro host _
    congr 1
    apply List.map_congr_left
    intro item _
    rw [vulnIssueLoop_eq _ _ _ _ hnd]
    rfl
  · intro host _ item _ hne
    unfold vulnResidual knownForHost
    constructor
    · intro h
      split at h
      · rename_i hk
        simpa using hk
      · exact absurd h hne
    · intro h
      have : (previous.Issues.any fun issue =>
          decide (issue.Title = item.PluginName) && decide (host.Name ∈ issueAddrs issue))
          = true := by simpa using h
      simp [this]

/-- Witness for C6: a prior project with one issue and a report with an already-known and a
new observation of it. -/
theorem sameVulnNewHostCheck_residual_witness :
    (sameVulnNewHostCheck
        { ID := "old", Tool := "", Hosts := [],
          Issues := [{ Title := "Outdated TLS", Status := StatusGrey,
                       Hosts := [{ IPv4 := "10.0.0.5", Port := 443, Protocol := "tcp" }] }] }
        { Report := { Name := "scan", ReportHosts :=
            [{ Name := "10.0.0.5", ReportItems :=
                [{ Port := 443, SvcName := "www", Protocol := "tcp", Severity := 2,
                   PluginID := "1", PluginName := "Outdated TLS" }] },
             { Name := "10.0.0.9", ReportItems :=
                [{ Port := 443, SvcName := "www", Protocol := "tcp", Severity := 2,
                   PluginID := "1", PluginName := "Outdated TLS" }] }] } }).Report.ReportHosts
      = [{ Name := "10.0.0.5", ReportItems := [nessus.ReportItem.empty] },
         { Name := "10.0.0.9", ReportItems :=
            [{ Port := 443, SvcName := "www", Protocol := "tcp", Severity := 2,
               PluginID := "1", PluginName := "Outdated TLS" }] }] :=
  (sameVulnNewHostCheck_residual _ _ (by decide)).1.trans (by decide)


/-! ## Binary search -/

/-- Invariant of the loop of `sort.Search` for a predicate that is monotone below `n`:
the result is the least index at which the predicate holds, or the upper bound. -/
theorem searchLoop_spec (f : Nat → Bool) (n : Nat)
    (hmono : ∀ a b, a ≤ b → b < n → f a = true → f b = true) :
    ∀ (fuel i j : Nat), i ≤ j → j ≤ n → j - i ≤ fuel →
      (∀ k, k < i → f k = false) → (∀ k, j ≤ k → k < n → f k = true) →
      i ≤ searchLoop f fuel i j ∧ searchLoop f fuel i j ≤ j ∧
      (∀ k, k < searchLoop f fuel i j → f k = false) ∧
      (∀ k, searchLoop f fuel i j ≤ k → k < n → f k = true) := by
  intro fuel
  induction fuel with
  | zero =>
    intro i j hij _ hfuel hlo hhi
    have : i = j := by omega
    subst this
    exact ⟨le_refl _, le_refl _, hlo, hhi⟩
  | succ fuel ih =>
    intro i j hij hjn hfuel hlo hhi
    unfold searchLoop
    by_cases hlt : i < j
    · simp only [hlt, if_true]
      have hh1 : i ≤ (i + j) / 2 := by omega
      have hh2 : (i + j) / 2 < j := by omega
      cases hf : f ((i + j) / 2) with
      | false =>
        simp only [Bool.not_false, if_true]
        have hlo2 : ∀ k, k < (i + j) / 2 + 1 → f k = false := by
          intro k hk
          cases hfk : f k with
          | false => rfl
          | true =>
            have := hmono k ((i + j) / 2) (by omega) (by omega) hfk
            rw [hf] at this
            cases this
        obtain ⟨h1, h2, h3, h4⟩ := ih ((i + j) / 2 + 1) j (by omega) hjn (by omega) hlo2 hhi
        exact ⟨by omega, h2, h3, h4⟩
      | true =>
        simp only [Bool.not_true, Bool.false_eq_true, if_false]
        have hhi2 : ∀ k, (i + j) / 2 ≤ k → k < n → f k = true :=
          fun k hk hkn => hmono _ k hk hkn hf
        obtain ⟨h1, h2, h3, h4⟩ := ih i ((i + j) / 2) hh1 (by omega) (by omega) hlo hhi2
        exact ⟨h1, by omega, h3, h4⟩
    · have : i = j := by omega
      subst this
      simp only [hlt, if_false]
      exact ⟨le_refl _, le_refl _, hlo, hhi⟩

/-- The iteration bound of `searchLoop` is never reached: for every predicate, any two
bounds of at least `j - i` give the same result, so `sort.Search` computes what the
unbounded Go loop computes. -/
theorem searchLoop_fuel (f : Nat → Bool) :
    ∀ (fuel fuel2 i j : Nat), j - i ≤ fuel → j - i ≤ fuel2 →
      searchLoop f fuel i j = searchLoop f fuel2 i j := by
  intro fuel
  induction fuel with
  | zero =>
    intro fuel2 i j h1 _
    have hij : ¬ i < j := by omega
    cases fuel2 with
    | zero => rfl
    | succ m => simp [searchLoop, hij]
  | succ fuel ih =>
    intro fuel2 i j h1 h2
    by_cases hij : i < j
    · cases fuel2 with
      | zero => omega
      | succ m =>
        unfold searchLoop
        simp only [hij, if_true]
        cases f ((i + j) / 2) with
        | false => exact ih m _ _ (by omega) (by omega)
        | true => exact ih m _ _ (by omega) (by omega)
    · cases fuel2 with
      | zero => simp [searchLoop, hij]
      | succ m => simp [searchLoop, hij]

/-- Specification of `sort.Search` on a predicate that is monotone below `n`. -/
theorem search_spec (f : Nat → Bool) (n : Nat)
    (hmono : ∀ a b, a ≤ b → b < n → f a = true → f b = true) :
    sort.Search n f ≤ n ∧ (∀ k, k < sort.Search n f → f k = false) ∧
      (∀ k, sort.Search n f ≤ k → k < n → f k = true) := by
  obtain ⟨-, h2, h3, h4⟩ := searchLoop_spec f n hmono n 0 n (Nat.zero_le _) (le_refl _)
    (by omega) (fun k hk => absurd hk (Nat.not_lt_zero _)) (fun k hk hkn => absurd hkn (by omega))
  exact ⟨h2, h3, h4⟩

theorem sorted_ge_mono (a : List Int) (x : Int) (hs : a.Sorted (· ≤ ·)) :
    ∀ i j, i ≤ j → j < a.length →
      decide (a.getD i 0 ≥ x) = true → decide (a.getD j 0 ≥ x) = true := by
  intro i j hij hj hi
  have hi2 : i < a.length := by omega
  rw [List.getD_eq_getElem _ _ hi2] at hi
  rw [List.getD_eq_getElem _ _ hj]
  have hle : a[i] ≤ a[j] := by
    have := hs.rel_get_of_le (a := ⟨i, hi2⟩) (b := ⟨j, hj⟩) (by simpa using hij)
    simpa using this
  simp only [ge_iff_le, decide_eq_true_eq] at hi ⊢
  exact le_trans hi hle

/-- On a sorted list the binary search finds every element: the index returned for an
element of the list is in range and holds that element. -/
theorem search_of_mem (a : List Int) (x : Int) (hs : a.Sorted (· ≤ ·)) (hx : x ∈ a) :
    sort.Search a.length (fun i => decide (a.getD i 0 ≥ x)) < a.length ∧
      a.getD (sort.Search a.length fun i => decide (a.getD i 0 ≥ x)) 0 = x := by
  obtain ⟨h1, h2, h3⟩ := search_spec (fun i => decide (a.getD i 0 ≥ x)) a.length
    (sorted_ge_mono a x hs)
  obtain ⟨k, hkn, hk⟩ := List.mem_iff_getElem.1 hx
  have hkr : sort.Search a.length (fun i => decide (a.getD i 0 ≥ x)) ≤ k := by
    by_contra hlt
    have := h2 k (by omega)
    rw [List.getD_eq_getElem _ _ hkn, hk] at this
    simp at this
  have hlt : sort.Search a.length (fun i => decide (a.getD i 0 ≥ x)) < a.length :=
    lt_of_le_of_lt hkr hkn
  refine ⟨hlt, ?_⟩
  have hge := h3 _ (le_refl _) hlt
  rw [List.getD_eq_getElem _ _ hlt] at hge ⊢
  have hle : a[sort.Search a.length (fun i => decide (a.getD i 0 ≥ x))] ≤ a[k] := by
    have := hs.rel_get_of_le (a := ⟨_, hlt⟩) (b := ⟨k, hkn⟩) (by simpa using hkr)
    simpa using this
  simp only [ge_iff_le, decide_eq_true_eq] at hge
  rw [hk] at hle
  exact le_antisymm hle hge

theorem isTop200Lair_iff (top200ports : List Int) (service : lair.Service)
    (hs : top200ports.Sorted (· ≤ ·)) :
    isTop200Lair top200ports service = true ↔ service.Port ∈ top200ports := by
  unfold isTop200Lair
  constructor
  · intro h
    simp only [ite_eq_left_iff, not_and, Bool.false_eq_true, imp_false, not_forall,
      not_not] at h
    obtain ⟨hlt, he⟩ := h
    rw [← he, List.getD_eq_getElem _ _ hlt]
    exact List.getElem_mem _
  · intro h
    exact if_pos (search_of_mem top200ports service.Port hs h)

theorem isTop200Nmap_iff (top200ports : List Int) (port : nmap.Port)
    (hs : top200ports.Sorted (· ≤ ·)) :
    isTop200Nmap top200ports port = true ↔
      port.PortId ∈ top200ports ∧ port.State.State = "open" := by
  unfold isTop200Nmap
  constructor
  · intro h
    simp only [ite_eq_left_iff, not_and, Bool.false_eq_true, imp_false, not_forall,
      not_not] at h
    obtain ⟨hlt, he, ho⟩ := h
    refine ⟨?_, ho⟩
    rw [← he, List.getD_eq_getElem _ _ hlt]
    exact List.getElem_mem _
  · intro h
    obtain ⟨h1, h2⟩ := search_of_mem top200ports port.PortId hs h.1
    exact if_pos ⟨h1, h2, h.2⟩

theorem searchInts_lt_of_mem (a : List Int) (x : Int) (hs : a.Sorted (· ≤ ·)) (hx : x ∈ a) :
    sort.SearchInts a x < a.length :=
  (search_of_mem a x hs hx).1

theorem sorted_Ints (a : List Int) : (sort.Ints a).Sorted (· ≤ ·) :=
  List.sorted_insertionSort _ a

theorem perm_Ints (a : List Int) : (sort.Ints a).Perm a :=
  List.perm_insertionSort _ a


/-! ## Port-set differ: the prior port maps -/

theorem PortMap.append_apply (m : PortMap) (key : String) (ports : List Int) (k : String) :
    m.append key ports k = if k = key then some ((m k).getD [] ++ ports) else m k := rfl

theorem serviceFold_fst_indep (top200ports : List Int) (ipv4 : String)
    (services : List lair.Service) (u : List Int) (m m2 : PortMap) :
    (services.foldl (serviceStep top200ports ipv4) (u, m)).1 =
      (services.foldl (serviceStep top200ports ipv4) (u, m2)).1 := by
  induction services generalizing u m m2 with
  | nil => rfl
  | cons s rest ih => exact ih _ _ _

/-- The loop over the services of one prior host appends their ports, in order, to the
entry of the host address in `previousHostAllPorts`. -/
theorem serviceFold_snd (top200ports : List Int) (ipv4 : String)
    (services : List lair.Service) (u : List Int) (m : PortMap) (k : String) :
    (services.foldl (serviceStep top200ports ipv4) (u, m)).2 k =
      if k = ipv4 ∧ services ≠ [] then some ((m k).getD [] ++ services.map (·.Port))
      else m k := by
  induction services generalizing u m with
  | nil => simp
  | cons s rest ih =>
    have e : serviceStep top200ports ipv4 (u, m) s =
        ((serviceStep top200ports ipv4 (u, m) s).1, m.append ipv4 [s.Port]) := rfl
    rw [List.foldl_cons, e, ih]
    by_cases hk : k = ipv4
    · by_cases hr : rest = []
      · simp [hk, hr, PortMap.append_apply]
      · simp [hk, hr, PortMap.append_apply]
    · simp [hk, PortMap.append_apply]

theorem uniqueFold_apply (ipv4 : String) (u : List Int) (m : PortMap) (k : String) :
    (u.foldl (fun m port => PortMap.append m ipv4 [port]) m) k =
      if k = ipv4 ∧ u ≠ [] then some ((m k).getD [] ++ u) else m k := by
  induction u generalizing m with
  | nil => simp
  | cons p rest ih =>
    rw [List.foldl_cons, ih]
    by_cases hk : k = ipv4
    · by_cases hr : rest = []
      · simp [hk, hr, PortMap.append_apply]
      · simp [hk, hr, PortMap.append_apply]
    · simp [hk, PortMap.append_apply]

/-- The unsorted `previousHostAllPorts`: the recorded ports of each address, and no entry
for an address without recorded port. -/
theorem previousFold_snd (top200ports : List Int) (hosts : List lair.Host)
    (st : PortMap × PortMap) (k : String) :
    (hosts.foldl (previousHostStep top200ports) st).2 k =
      if (hosts.filter fun host => decide (host.IPv4 = k)).flatMap
          (fun host => host.Services.map (·.Port)) = [] then st.2 k
      else some ((st.2 k).getD [] ++
        (hosts.filter fun host => decide (host.IPv4 = k)).flatMap
          (fun host => host.Services.map (·.Port))) := by
  induction hosts generalizing st with
  | nil => simp
  | cons host rest ih =>
    rw [List.foldl_cons, ih]
    simp only [previousHostStep, serviceFold_snd]
    by_cases hk : host.IPv4 = k
    · have hk2 : k = host.IPv4 := hk.symm
      rw [List.filter_cons_of_pos (by simpa using hk), List.flatMap_cons]
      by_cases hs : host.Services = []
      · simp [hs, hk2]
      · by_cases hr : (rest.filter fun host => decide (host.IPv4 = k)).flatMap
            (fun host => host.Services.map (·.Port)) = []
        · simp [hs, hk2, hr]
        · simp [hs, hk2, hr]
    · have hk2 : ¬ k = host.IPv4 := fun e => hk e.symm
      rw [List.filter_cons_of_neg (by simpa using hk)]
      simp [hk2]

/-- The sorted `previousHostAllPorts` of `portCheck`. -/
theorem previousPorts_all (top200ports : List Int) (previous : lair.Project) (a : String) :
    (previousPorts top200ports previous).2 a =
      if recordedPorts previous a = [] then none
      else some (sort.Ints (recordedPorts previous a)) := by
  simp only [previousPorts, PortMap.sortAll, previousFold_snd, recordedPorts]
  split <;> simp

/-- No entry of `previousHostTopPorts` or `previousHostAllPorts` is created for an address
that no prior host has. -/
theorem previousFold_absent (top200ports : List Int) (hosts : List lair.Host)
    (st : PortMap × PortMap) (k : String) (h : ∀ host ∈ hosts, host.IPv4 ≠ k) :
    (hosts.foldl (previousHostStep top200ports) st).1 k = st.1 k := by
  induction hosts generalizing st with
  | nil => rfl
  | cons host rest ih =>
    rw [List.foldl_cons, ih _ (fun x hx => h x (List.mem_cons_of_mem _ hx))]
    have hk : ¬ k = host.IPv4 := fun e => h host (List.mem_cons_self _ _) e.symm
    simp [previousHostStep, uniqueFold_apply, hk]

theorem previousPorts_top_absent (top200ports : List Int) (previous : lair.Project)
    (a : String) (h : ∀ host ∈ previous.Hosts, host.IPv4 ≠ a) :
    (previousPorts top200ports previous).1 a = none := by
  simp only [previousPorts, PortMap.sortAll, previousFold_absent _ _ _ _ h, Option.map_none']

theorem recordedPorts_absent (previous : lair.Project) (a : String)
    (h : ∀ host ∈ previous.Hosts, host.IPv4 ≠ a) : recordedPorts previous a = [] := by
  unfold recordedPorts
  rw [List.filter_eq_nil_iff.2 (fun host hm => by simpa using h host hm)]
  rfl


/-! ## Port-set differ: one fresh host entry -/

theorem topPortLoop_eq (oldPorts newTop200 : List Int) (found : Bool) :
    topPortLoop oldPorts newTop200 found =
      (found || newTop200.any fun newPort =>
        decide (oldPorts.length = sort.SearchInts oldPorts newPort)) := by
  induction newTop200 with
  | nil => simp [topPortLoop]
  | cons p rest ih =>
    by_cases h : oldPorts.length = sort.SearchInts oldPorts p
    · simp [topPortLoop, h]
    · simp [topPortLoop, h, ih]

/-- Closed form of the loop over `host.Ports`: the address is recorded exactly when new
exposure was not flagged yet and some open port lies beyond every prior port. -/
theorem allPortLoop_eq (addr : String) (oldAllPorts : List Int) (ports : List nmap.Port)
    (st : Bool × List String) :
    allPortLoop addr oldAllPorts ports st =
      if st.1 = false ∧ hasNewPort oldAllPorts ports = true then (true, st.2 ++ [addr])
      else st := by
  induction ports with
  | nil => simp [allPortLoop, hasNewPort]
  | cons p rest ih =>
    unfold allPortLoop
    by_cases ho : p.State.State = "open"
    · by_cases hn : oldAllPorts.length = sort.SearchInts oldAllPorts p.PortId
      · by_cases hf : st.1 = false
        · simp [ho, hn, hf, hasNewPort]
        · simp [ho, hn, hf, ih]
      · simp only [ho, hn, ne_eq, not_true_eq_false, if_false, false_and, ih]
        simp [hasNewPort, ho, hn]
    · simp only [ho, ne_eq, not_false_eq_true, if_true, ih]
      simp [hasNewPort, ho]

/-- Closed form of the body of the loop over `host.Addresses`. -/
theorem addressStep_eq (prevTop prevAll : PortMap) (ports : List nmap.Port)
    (newTop200 : List Int) (st : CheckState) (address : nmap.Address) :
    addressStep prevTop prevAll ports newTop200 st address =
      match prevAll address.Addr with
      | some oldAllPorts =>
        { foundNewPort :=
            (match prevTop address.Addr with
              | some oldPorts => topPortLoop oldPorts newTop200 st.foundNewPort
              | none => true) || hasNewPort oldAllPorts ports,
          reco :=
            { hosts :=
                if (match prevTop address.Addr with
                    | some oldPorts => topPortLoop oldPorts newTop200 st.foundNewPort
                    | none => true) = false ∧ hasNewPort oldAllPorts ports = true
                then st.reco.hosts ++ [address.Addr] else st.reco.hosts,
              service := st.reco.service.append address.Addr oldAllPorts } }
      | none =>
        { foundNewPort :=
            match prevTop address.Addr with
            | some oldPorts => topPortLoop oldPorts newTop200 st.foundNewPort
            | none => true,
          reco := st.reco } := by
  unfold addressStep
  cases hA : prevAll address.Addr with
  | none => rfl
  | some oldAllPorts =>
    simp only [allPortLoop_eq]
    split <;> rename_i hc
    · simp [hc.1, hc.2]
    · by_cases hf : (match prevTop address.Addr with
          | some oldPorts => topPortLoop oldPorts newTop200 st.foundNewPort
          | none => true) = false
      · have hn : hasNewPort oldAllPorts ports = false := by
          cases hh : hasNewPort oldAllPorts ports with
          | false => rfl
          | true => exact absurd ⟨hf, hh⟩ hc
        simp [hf, hn]
      · simp only [Bool.not_eq_false] at hf
        simp [hf]

theorem addressStep_found_of_found (prevTop prevAll : PortMap) (ports : List nmap.Port)
    (newTop200 : List Int) (st : CheckState) (address : nmap.Address)
    (h : st.foundNewPort = true) :
    (addressStep prevTop prevAll ports newTop200 st address).foundNewPort = true := by
  rw [addressStep_eq]
  cases prevAll address.Addr <;> cases prevTop address.Addr <;> simp [topPortLoop_eq, h]

theorem addressStep_found_of_no_top (prevTop prevAll : PortMap) (ports : List nmap.Port)
    (newTop200 : List Int) (st : CheckState) (address : nmap.Address)
    (h : prevTop address.Addr = none) :
    (addressStep prevTop prevAll ports newTop200 st address).foundNewPort = true := by
  rw [addressStep_eq]
  cases prevAll address.Addr <;> simp [h]

theorem addressFold_found_of_found (prevTop prevAll : PortMap) (ports : List nmap.Port)
    (newTop200 : List Int) (addresses : List nmap.Address) (st : CheckState)
    (h : st.foundNewPort = true) :
    (addresses.foldl (addressStep prevTop prevAll ports newTop200) st).foundNewPort = true := by
  induction addresses generalizing st with
  | nil => exact h
  | cons a rest ih => exact ih _ (addressStep_found_of_found _ _ _ _ _ _ h)

/-- An address without entry in `previousHostTopPorts` flags new exposure for its entry. -/
theorem addressFold_found_of_no_top (prevTop prevAll : PortMap) (ports : List nmap.Port)
    (newTop200 : List Int) (addresses : List nmap.Address) (st : CheckState)
    (h : ∃ address ∈ addresses, prevTop address.Addr = none) :
    (addresses.foldl (addressStep prevTop prevAll ports newTop200) st).foundNewPort = true := by
  induction addresses generalizing st with
  | nil => simp at h
  | cons a rest ih =>
    obtain ⟨address, hm, hn⟩ := h
    rcases List.mem_cons.1 hm with rfl | hm
    · rw [List.foldl_cons]
      exact addressFold_found_of_found _ _ _ _ _ _ (addressStep_found_of_no_top _ _ _ _ _ _ hn)
    · exact ih _ ⟨address, hm, hn⟩

/-- The flag `foundNewPort` does not depend on the `reco` accumulated so far. -/
theorem addressFold_found_indep (prevTop prevAll : PortMap) (ports : List nmap.Port)
    (newTop200 : List Int) (addresses : List nmap.Address) (st st2 : CheckState)
    (h : st.foundNewPort = st2.foundNewPort) :
    (addresses.foldl (addressStep prevTop prevAll ports newTop200) st).foundNewPort =
      (addresses.foldl (addressStep prevTop prevAll ports newTop200) st2).foundNewPort := by
  induction addresses generalizing st st2 with
  | nil => exact h
  | cons a rest ih =>
    apply ih
    rw [addressStep_eq, addressStep_eq, h]
    cases prevAll a.Addr <;> rfl

theorem checkHost_found (top200ports : List Int) (prevTop prevAll : PortMap) (reco : recolor)
    (host : nmap.Host) :
    (checkHost top200ports prevTop prevAll reco host).foundNewPort =
      keepsEntry top200ports prevTop prevAll host :=
  addressFold_found_indep _ _ _ _ _ _ _ rfl


/-! ## Port-set differ: the loop over the fresh host entries -/

theorem keepsEntry_of_no_address (top200ports : List Int) (prevTop prevAll : PortMap)
    (host : nmap.Host) (h : host.Addresses = []) :
    keepsEntry top200ports prevTop prevAll host = false := by
  simp [keepsEntry, checkHost, h]

/-- Closed form of the loop over `nmapData.Hosts`: it panics exactly when some fresh host
entry has no address, and otherwise returns the accumulated `reco` and the residual entries. -/
theorem hostsLoop_eq (top200ports : List Int) (prevTop prevAll : PortMap)
    (hosts : List nmap.Host) (reco : recolor) :
    hostsLoop top200ports prevTop prevAll hosts reco =
      if ∀ host ∈ hosts, host.Addresses ≠ [] then
        some (recoAfter top200ports prevTop prevAll hosts reco,
          hosts.map (residualEntry top200ports prevTop prevAll))
      else none := by
  induction hosts generalizing reco with
  | nil => simp [hostsLoop, recoAfter]
  | cons host rest ih =>
    unfold hostsLoop
    simp only [checkHost_found, ih, List.forall_mem_cons]
    by_cases hk : keepsEntry top200ports prevTop prevAll host = true
    · have ha : host.Addresses ≠ [] := by
        intro e
        rw [keepsEntry_of_no_address _ _ _ _ e] at hk
        cases hk
      by_cases hr : ∀ h ∈ rest, h.Addresses ≠ []
      · simp [hk, hr, ha, recoAfter, residualEntry]
      · simp [hk, hr]
    · simp only [Bool.not_eq_true] at hk
      cases hadr : host.Addresses with
      | nil => simp [hk]
      | cons a as =>
        by_cases hr : ∀ h ∈ rest, h.Addresses ≠ []
        · simp [hk, hr, recoAfter, residualEntry]
        · simp [hk, hr]

/-- Closed form of `portCheck`. -/
theorem portCheck_eq (top200ports : List Int) (previous : lair.Project)
    (nmapData : nmap.NmapRun) :
    portCheck top200ports previous nmapData =
      if ∀ host ∈ nmapData.Hosts, host.Addresses ≠ [] then
        some (recoAfter top200ports (previousPorts top200ports previous).1
            (previousPorts top200ports previous).2 nmapData.Hosts
            { hosts := [], service := fun _ => none },
          ⟨nmapData.Hosts.map (residualEntry top200ports (previousPorts top200ports previous).1
            (previousPorts top200ports previous).2)⟩)
      else none := by
  unfold portCheck
  simp only [hostsLoop_eq]
  split <;> rfl

/-- Where an address of `reco.hosts` comes from, for one fresh host entry. -/
theorem addressFold_hosts (prevTop prevAll : PortMap) (ports : List nmap.Port)
    (newTop200 : List Int) (addresses : List nmap.Address) (st : CheckState) (a : String)
    (h : a ∈ (addresses.foldl (addressStep prevTop prevAll ports newTop200) st).reco.hosts) :
    a ∈ st.reco.hosts ∨ ∃ address ∈ addresses, address.Addr = a ∧
      ∃ oldAllPorts, prevAll a = some oldAllPorts ∧ hasNewPort oldAllPorts ports = true := by
  induction addresses generalizing st with
  | nil => exact Or.inl h
  | cons address rest ih =>
    rw [List.foldl_cons] at h
    rcases ih _ h with h1 | ⟨x, hx, hxa, hold⟩
    · rw [addressStep_eq] at h1
      cases hA : prevAll address.Addr with
      | none =>
        rw [hA] at h1
        exact Or.inl h1
      | some oldAllPorts =>
        rw [hA] at h1
        simp only at h1
        split at h1
        · rename_i hc
          rcases List.mem_append.1 h1 with h2 | h2
          · exact Or.inl h2
          · have hae : a = address.Addr := by simpa using h2
            subst hae
            exact Or.inr ⟨address, List.mem_cons_self _ _, rfl, oldAllPorts, hA, hc.2⟩
        · exact Or.inl h1
    · exact Or.inr ⟨x, List.mem_cons_of_mem _ hx, hxa, hold⟩

/-- Where an address of `reco.hosts` comes from, over all fresh host entries. -/
theorem recoAfter_hosts (top200ports : List Int) (prevTop prevAll : PortMap)
    (hosts : List nmap.Host) (reco : recolor) (a : String)
    (h : a ∈ (recoAfter top200ports prevTop prevAll hosts reco).hosts) :
    a ∈ reco.hosts ∨ ∃ host ∈ hosts, ∃ address ∈ host.Addresses, address.Addr = a ∧
      ∃ oldAllPorts, prevAll a = some oldAllPorts ∧
        hasNewPort oldAllPorts host.Ports = true := by
  induction hosts generalizing reco with
  | nil => exact Or.inl h
  | cons host rest ih =>
    have h2 : a ∈ (recoAfter top200ports prevTop prevAll rest
        (checkHost top200ports prevTop prevAll reco host).reco).hosts := h
    rcases ih _ h2 with h1 | ⟨x, hx, hrest⟩
    · rcases addressFold_hosts _ _ _ _ _ _ a h1 with h3 | h3
      · exact Or.inl h3
      · exact Or.inr ⟨host, List.mem_cons_self _ _, h3⟩
    · exact Or.inr ⟨x, List.mem_cons_of_mem _ hx, hrest⟩


/-! ## Port-set differ: theorems -/

theorem hasNewPort_iff (oldAllPorts : List Int) (ports : List nmap.Port) :
    hasNewPort oldAllPorts ports = true ↔
      ∃ port ∈ ports, port.State.State = "open" ∧
        oldAllPorts.length = sort.SearchInts oldAllPorts port.PortId := by
  simp [hasNewPort]

theorem mem_zip_map_right {α β : Type} (f : α → β) (l : List α) (pair : α × β)
    (h : pair ∈ List.zip l (l.map f)) : pair.2 = f pair.1 := by
  induction l with
  | nil => simp at h
  | cons x rest ih =>
    rw [List.map_cons, List.zip_cons_cons] at h
    rcases List.mem_cons.1 h with rfl | h
    · rfl
    · exact ih h

/-- C2, at a concrete input: the prior host 10.0.0.5 has ports 22 and 443, the fresh entry
for 10.0.0.5 has the open port 80, which is not recorded; `portCheck` flags nothing and
replaces the entry by the empty host, because `sort.SearchInts` returns the insertion index
1 and only an index equal to the length counts as "not found". -/
theorem portCheck_drops_entry_with_unseen_port :
    80 ∉ recordedPorts
        { ID := "old", Tool := "", Issues := [],
          Hosts := [{ IPv4 := "10.0.0.5", Status := StatusGrey,
                      Services := [{ Port := 22, Protocol := "tcp", Status := StatusGrey },
                                   { Port := 443, Protocol := "tcp", Status := StatusGrey }] }] }
        "10.0.0.5" ∧
    sort.SearchInts [22, 443] 80 = 1 ∧
    (portCheck [22]
        { ID := "old", Tool := "", Issues := [],
          Hosts := [{ IPv4 := "10.0.0.5", Status := StatusGrey,
                      Services := [{ Port := 22, Protocol := "tcp", Status := StatusGrey },
                                   { Port := 443, Protocol := "tcp", Status := StatusGrey }] }] }
        { Hosts := [{ Addresses := [{ Addr := "10.0.0.5", AddrType := "ipv4" }],
                      Ports := [{ Protocol := "tcp", PortId := 80,
                                  State := { State := "open" } }] }] }).map
      (fun res => (res.1.hosts, res.2))
      = some ([], { Hosts := [nmap.Host.empty] }) := by
  decide

/-- C3, at a concrete input: 172.16.0.1 has no prior record and the fresh scan reports it
with an open port; `recolor.hosts` is empty, and the fresh entry is kept. -/
theorem portCheck_new_host_not_in_hosts :
    (portCheck [80]
        { ID := "old", Tool := "", Issues := [], Hosts := [] }
        { Hosts := [{ Addresses := [{ Addr := "172.16.0.1", AddrType := "ipv4" }],
                      Ports := [{ Protocol := "tcp", PortId := 80,
                                  State := { State := "open" } }] }] }).map
      (fun res => (res.1.hosts, res.2))
      = some ([], { Hosts := [{ Addresses := [{ Addr := "172.16.0.1", AddrType := "ipv4" }],
                                Ports := [{ Protocol := "tcp", PortId := 80,
                                            State := { State := "open" } }] }] }) := by
  decide

/-- C3, amended: an address that occurs in the fresh scan and is not the address of any
prior host flags new exposure by keeping its fresh host entry unchanged in
`nmapData.Hosts`; it is not an element of `recolor.hosts`.  `portCheck` returns whenever
every fresh host entry has an address. -/
theorem portCheck_new_host_kept (top200ports : List Int) (previous : lair.Project)
    (nmapData : nmap.NmapRun) (a : String)
    (hnew : ∀ host ∈ previous.Hosts, host.IPv4 ≠ a) :
    (∀ res, portCheck top200ports previous nmapData = some res →
      a ∉ res.1.hosts ∧ res.2.Hosts.length = nmapData.Hosts.length ∧
      ∀ pair ∈ List.zip nmapData.Hosts res.2.Hosts,
        (∃ address ∈ pair.1.Addresses, address.Addr = a) → pair.2 = pair.1) ∧
    ((∀ host ∈ nmapData.Hosts, host.Addresses ≠ []) →
      ∃ res, portCheck top200ports previous nmapData = some res) := by
  refine ⟨?_, ?_⟩
  · intro res hres
    rw [portCheck_eq] at hres
    split at hres
    · injection hres with hres
      subst hres
      refine ⟨?_, by simp, ?_⟩
      · intro hmem
        rcases recoAfter_hosts _ _ _ _ _ a hmem with h1 | ⟨_, _, _, _, _, old, hold, _⟩
        · simp at h1
        · rw [previousPorts_all, recordedPorts_absent _ _ hnew] at hold
          simp at hold
      · intro pair hpair hadr
        have h2 := mem_zip_map_right _ _ pair hpair
        rw [h2]
        obtain ⟨address, hmem, hadr⟩ := hadr
        have hk : keepsEntry top200ports (previousPorts top200ports previous).1
            (previousPorts top200ports previous).2 pair.1 = true :=
          addressFold_found_of_no_top _ _ _ _ _ _
            ⟨address, hmem, by rw [hadr]; exact previousPorts_top_absent _ _ _ hnew⟩
        simp [residualEntry, hk]
    · cases hres
  · intro hadr
    rw [portCheck_eq, if_pos hadr]
    exact ⟨_, rfl⟩

/-- Witness for C3: the address 172.16.0.1 without prior record. -/
theorem portCheck_new_host_kept_witness :
    ∃ res, portCheck [80]
        { ID := "old", Tool := "", Issues := [],
          Hosts := [{ IPv4 := "10.0.0.5", Status := StatusGrey,
                      Services := [{ Port := 22, Protocol := "tcp", Status := StatusGrey }] }] }
        { Hosts := [{ Addresses := [{ Addr := "172.16.0.1", AddrType := "ipv4" }],
                      Ports := [{ Protocol := "tcp", PortId := 80,
                                  State := { State := "open" } }] }] } = some res ∧
      "172.16.0.1" ∉ res.1.hosts ∧ res.2.Hosts.length = 1 :=
  ((portCheck_new_host_kept [80] _ _ "172.16.0.1" (by decide)).2 (by decide)).elim
    fun res hres => ⟨res, hres,
      ((portCheck_new_host_kept [80] _ _ "172.16.0.1" (by decide)).1 res hres).1,
      ((portCheck_new_host_kept [80] _ _ "172.16.0.1" (by decide)).1 res hres).2.1⟩

/-- C7: if every open port of every fresh host entry that carries address `a` is among
the ports recorded for `a` in the prior snapshot, then `a` is not an element of the
`recolor.hosts` that `portCheck` returns. -/
theorem portCheck_known_ports_not_flagged (top200ports : List Int) (previous : lair.Project)
    (nmapData : nmap.NmapRun) (a : String) (res : recolor × nmap.NmapRun)
    (hres : portCheck top200ports previous nmapData = some res)
    (hsub : ∀ host ∈ nmapData.Hosts, (∃ address ∈ host.Addresses, address.Addr = a) →
      ∀ port ∈ host.Ports, port.State.State = "open" →
        port.PortId ∈ recordedPorts previous a) :
    a ∉ res.1.hosts := by
  rw [portCheck_eq] at hres
  split at hres
  · injection hres with hres
    subst hres
    intro hmem
    rcases recoAfter_hosts _ _ _ _ _ a hmem with h1 | ⟨host, hh, address, hm, hadr, old, hold, hn⟩
    · simp at h1
    · rw [previousPorts_all] at hold
      split at hold
      · cases hold
      · injection hold with hold
        subst hold
        obtain ⟨port, hp, hopen, hlen⟩ := (hasNewPort_iff _ _).1 hn
        have hrec := hsub host hh ⟨address, hm, hadr⟩ port hp hopen
        have hlt := searchInts_lt_of_mem _ port.PortId (sorted_Ints _)
          ((perm_Ints _).mem_iff.2 hrec)
        omega
  · cases hres

/-- Witness for C7: host 10.0.0.5 with prior ports 22 and 443 and the same ports open in
the fresh scan. -/
theorem portCheck_known_ports_not_flagged_witness :
    ∃ res, portCheck [22, 443]
        { ID := "old", Tool := "", Issues := [],
          Hosts := [{ IPv4 := "10.0.0.5", Status := StatusGrey,
                      Services := [{ Port := 22, Protocol := "tcp", Status := StatusGrey },
                                   { Port := 443, Protocol := "tcp", Status := StatusGrey }] }] }
        { Hosts := [{ Addresses := [{ Addr := "10.0.0.5", AddrType := "ipv4" }],
                      Ports := [{ Protocol := "tcp", PortId := 22,
                                  State := { State := "open" } },
                                { Protocol := "tcp", PortId := 443,
                                  State := { State := "open" } }] }] } = some res ∧
      "10.0.0.5" ∉ res.1.hosts :=
  ⟨_, (portCheck_eq _ _ _).trans (if_pos (by decide)),
    portCheck_known_ports_not_flagged _ _ _ "10.0.0.5" _
      ((portCheck_eq _ _ _).trans (if_pos (by decide))) (by decide)⟩


/-! ## Port-set differ: the known-ports map -/

theorem appendCopies_add (old : List Int) (c1 c2 : Nat) (entry : Option (List Int)) :
    appendCopies old c2 (appendCopies old c1 entry) = appendCopies old (c1 + c2) entry := by
  unfold appendCopies
  by_cases h1 : c1 = 0
  · simp [h1]
  · by_cases h2 : c2 = 0
    · simp [h1, h2]
    · have h3 : c1 + c2 ≠ 0 := by omega
      have h4 : (List.replicate (c1 + c2) old).flatten =
          (List.replicate c1 old).flatten ++ (List.replicate c2 old).flatten := by
        rw [List.replicate_add, List.flatten_append]
      rw [if_neg h1, if_neg h2, if_neg h3, h4, Option.getD_some, List.append_assoc]

theorem addressStep_service (prevTop prevAll : PortMap) (ports : List nmap.Port)
    (newTop200 : List Int) (st : CheckState) (address : nmap.Address) (k : String) :
    (addressStep prevTop prevAll ports newTop200 st address).reco.service k =
      match prevAll k with
      | none => st.reco.service k
      | some old => appendCopies old (if address.Addr = k then 1 else 0) (st.reco.service k) := by
  rw [addressStep_eq]
  by_cases hk : address.Addr = k
  · subst hk
    cases hA : prevAll address.Addr with
    | none => rfl
    | some old => simp [appendCopies, PortMap.append_apply]
  · have hk2 : ¬ k = address.Addr := fun e => hk e.symm
    cases hA : prevAll address.Addr with
    | none => cases prevAll k <;> simp [appendCopies, hk]
    | some old => cases prevAll k <;> simp [appendCopies, PortMap.append_apply, hk, hk2]

theorem addressFold_service (prevTop prevAll : PortMap) (ports : List nmap.Port)
    (newTop200 : List Int) (addresses : List nmap.Address) (st : CheckState) (k : String) :
    (addresses.foldl (addressStep prevTop prevAll ports newTop200) st).reco.service k =
      match prevAll k with
      | none => st.reco.service k
      | some old => appendCopies old ((addresses.map (·.Addr)).count k) (st.reco.service k) := by
  induction addresses generalizing st with
  | nil => cases prevAll k <;> simp [appendCopies]
  | cons address rest ih =>
    rw [List.foldl_cons, ih, addressStep_service]
    cases prevAll k with
    | none => rfl
    | some old =>
      simp only [appendCopies_add, List.map_cons, List.count_cons]
      congr 1
      by_cases hk : address.Addr = k
      · simp [hk, Nat.add_comm]
      · simp [hk]

/-- The entry of `reco.service` for an address: the prior sorted port list of the address,
once for every time a fresh host entry lists the address. -/
theorem recoAfter_service (top200ports : List Int) (prevTop prevAll : PortMap)
    (hosts : List nmap.Host) (reco : recolor) (k : String) :
    (recoAfter top200ports prevTop prevAll hosts reco).service k =
      match prevAll k with
      | none => reco.service k
      | some old =>
        appendCopies old ((hosts.flatMap fun host => host.Addresses.map (·.Addr)).count k)
          (reco.service k) := by
  induction hosts generalizing reco with
  | nil => cases prevAll k <;> simp [recoAfter, appendCopies]
  | cons host rest ih =>
    have h2 : (recoAfter top200ports prevTop prevAll (host :: rest) reco).service k =
        (recoAfter top200ports prevTop prevAll rest
          (checkHost top200ports prevTop prevAll reco host).reco).service k := rfl
    rw [h2, ih]
    unfold checkHost
    rw [addressFold_service]
    cases prevAll k with
    | none => rfl
    | some old => simp only [appendCopies_add, List.flatMap_cons, List.count_append]

theorem recordedPorts_ne_nil (previous : lair.Project) (a : String)
    (h : ∃ host ∈ previous.Hosts, host.IPv4 = a ∧ host.Services ≠ []) :
    recordedPorts previous a ≠ [] := by
  obtain ⟨host, hm, ha, hs⟩ := h
  obtain ⟨s, hsm⟩ := List.exists_mem_of_ne_nil _ hs
  have : s.Port ∈ recordedPorts previous a := by
    simp only [recordedPorts, List.mem_flatMap, List.mem_filter, List.mem_map]
    exact ⟨host, ⟨hm, by simpa using ha⟩, s, hsm, rfl⟩
  exact List.ne_nil_of_mem this

/-- C9, at a concrete input: the prior host 10.0.0.5 has services 53/tcp and 53/udp and the
fresh scan has one entry for 10.0.0.5; `recolor.service` holds `[53, 53]`, whereas the port
set sorted with duplicates removed is `[53]`. -/
theorem portCheck_service_keeps_duplicates :
    (portCheck []
        { ID := "old", Tool := "", Issues := [],
          Hosts := [{ IPv4 := "10.0.0.5", Status := StatusGrey,
                      Services := [{ Port := 53, Protocol := "tcp", Status := StatusGrey },
                                   { Port := 53, Protocol := "udp", Status := StatusGrey }] }] }
        { Hosts := [{ Addresses := [{ Addr := "10.0.0.5", AddrType := "ipv4" }],
                      Ports := [{ Protocol := "tcp", PortId := 53,
                                  State := { State := "open" } }] }] }).map
      (fun res => res.1.service "10.0.0.5") = some (some [53, 53]) ∧
    sort.Ints (recordedPorts
        { ID := "old", Tool := "", Issues := [],
          Hosts := [{ IPv4 := "10.0.0.5", Status := StatusGrey,
                      Services := [{ Port := 53, Protocol := "tcp", Status := StatusGrey },
                                   { Port := 53, Protocol := "udp", Status := StatusGrey }] }] }
        "10.0.0.5").dedup = [53] := by
  decide

/-- C9, amended: when address `a` is listed exactly once in the fresh scan and is the address
of a prior host with at least one service, the `recolor.service[a]` that `portCheck` returns
is the list of all port numbers recorded for `a` in the prior snapshot sorted ascending,
duplicates kept, whether or not new exposure was flagged.  `portCheck` returns whenever every
fresh host entry has an address. -/
theorem portCheck_service_known_ports (top200ports : List Int) (previous : lair.Project)
    (nmapData : nmap.NmapRun) (a : String)
    (honce : (scanAddrs nmapData).count a = 1)
    (hprior : ∃ host ∈ previous.Hosts, host.IPv4 = a ∧ host.Services ≠ []) :
    (∀ res, portCheck top200ports previous nmapData = some res →
      res.1.service a = some (sort.Ints (recordedPorts previous a)) ∧
      (sort.Ints (recordedPorts previous a)).Sorted (· ≤ ·) ∧
      (sort.Ints (recordedPorts previous a)).Perm (recordedPorts previous a)) ∧
    ((∀ host ∈ nmapData.Hosts, host.Addresses ≠ []) →
      ∃ res, portCheck top200ports previous nmapData = some res) := by
  refine ⟨?_, ?_⟩
  · intro res hres
    rw [portCheck_eq] at hres
    split at hres
    · injection hres with hres
      subst hres
      refine ⟨?_, sorted_Ints _, perm_Ints _⟩
      simp only [recoAfter_service, previousPorts_all,
        if_neg (recordedPorts_ne_nil previous a hprior)]
      unfold scanAddrs at honce
      simp [honce, appendCopies]
    · cases hres
  · intro hadr
    rw [portCheck_eq, if_pos hadr]
    exact ⟨_, rfl⟩

/-- Witness for C9: host 10.0.0.5 with prior services 443, 22 and 22/udp, listed once in the
fresh scan. -/
theorem portCheck_service_known_ports_witness :
    ∃ res, portCheck [22]
        { ID := "old", Tool := "", Issues := [],
          Hosts := [{ IPv4 := "10.0.0.5", Status := StatusGrey,
                      Services := [{ Port := 443, Protocol := "tcp", Status := StatusGrey },
                                   { Port := 22, Protocol := "tcp", Status := StatusGrey },
                                   { Port := 22, Protocol := "udp", Status := StatusGrey }] }] }
        { Hosts := [{ Addresses := [{ Addr := "10.0.0.5", AddrType := "ipv4" }],
                      Ports := [{ Protocol := "tcp", PortId := 8080,
                                  State := { State := "open" } }] }] } = some res ∧
      res.1.service "10.0.0.5" = some [22, 22, 443] :=
  ((portCheck_service_known_ports [22] _ _ "10.0.0.5" (by decide) (by decide)).2
      (by decide)).elim
    fun res hres => ⟨res, hres,
      ((portCheck_service_known_ports [22] _ _ "10.0.0.5" (by decide) (by decide)).1
        res hres).1.trans (by decide)⟩


/-- C11: `makeProjectBlue` applied twice in sequence yields the same project as
`makeProjectBlue` applied once. -/
theorem makeProjectBlue_idempotent (previous : lair.Project) :
    makeProjectBlue (makeProjectBlue previous) = makeProjectBlue previous := by
  simp only [makeProjectBlue, blueIssues, blueHosts, blueServices, List.map_map, blueStatus_eq,
    Function.comp_def]

/-- C18: `makeProjectBlue` changes nothing except status fields: the identification of the
project, the number and order of issues, hosts and services, every title with its
affected-host records, every host address and every service port and protocol are the same
before and after. -/
theorem makeProjectBlue_frame (previous : lair.Project) :
    (makeProjectBlue previous).ID = previous.ID ∧
    (makeProjectBlue previous).Tool = previous.Tool ∧
    (makeProjectBlue previous).Issues.map (fun issue => (issue.Title, issue.Hosts)) =
      previous.Issues.map (fun issue => (issue.Title, issue.Hosts)) ∧
    (makeProjectBlue previous).Hosts.map
        (fun host => (host.IPv4, host.Services.map fun service =>
          (service.Port, service.Protocol))) =
      previous.Hosts.map
        (fun host => (host.IPv4, host.Services.map fun service =>
          (service.Port, service.Protocol))) := by
  refine ⟨rfl, rfl, ?_, ?_⟩
  · simp only [makeProjectBlue, blueIssues, List.map_map]
    rfl
  · simp only [makeProjectBlue, blueHosts, blueServices, List.map_map]
    apply List.map_congr_left
    intro host _
    simp only [Function.comp, List.map_map]
    rfl


/-! ## Port classifier: theorems -/

theorem isTop200LairLinear_iff (top200ports : List Int) (service : lair.Service) :
    isTop200LairLinear top200ports service = true ↔ service.Port ∈ top200ports := by
  induction top200ports with
  | nil => simp [isTop200LairLinear]
  | cons port rest ih =>
    by_cases h : port = service.Port
    · simp [isTop200LairLinear, h]
    · have h2 : ¬ service.Port = port := fun e => h e.symm
      simp [isTop200LairLinear, h, h2, ih]

/-- C12: for a reference list sorted ascending, `isTop200Nmap` returns true exactly when
the `PortId` of the port record is an element of the list and its state is "open". -/
theorem isTop200Nmap_spec (top200ports : List Int) (port : nmap.Port)
    (hs : top200ports.Sorted (· ≤ ·)) :
    isTop200Nmap top200ports port = true ↔
      port.PortId ∈ top200ports ∧ port.State.State = "open" :=
  isTop200Nmap_iff top200ports port hs

/-- Witness for C12: port 80 with the reference list `[22, 80, 443]`, open and closed. -/
theorem isTop200Nmap_spec_witness :
    isTop200Nmap [22, 80, 443]
        { Protocol := "tcp", PortId := 80, State := { State := "open" } } = true ∧
    ¬ isTop200Nmap [22, 80, 443]
        { Protocol := "tcp", PortId := 80, State := { State := "closed" } } = true :=
  ⟨(isTop200Nmap_spec [22, 80, 443] _ (by decide)).2 (by decide),
   fun h => absurd ((isTop200Nmap_spec [22, 80, 443] _ (by decide)).1 h).2 (by decide)⟩

/-- C13: for a reference list sorted ascending, the binary search of `isTop200Lair` returns
the same boolean as a plain linear membership test of `service.Port` in the list. -/
theorem isTop200Lair_eq_linear (top200ports : List Int) (service : lair.Service)
    (hs : top200ports.Sorted (· ≤ ·)) :
    isTop200Lair top200ports service = isTop200LairLinear top200ports service := by
  rw [Bool.eq_iff_iff, isTop200Lair_iff _ _ hs, isTop200LairLinear_iff]

/-- Witness for C13: port 443 is found by both tests in `[22, 80, 443]`. -/
theorem isTop200Lair_eq_linear_witness :
    isTop200Lair [22, 80, 443] { Port := 443, Protocol := "tcp", Status := StatusGrey } = true ∧
    isTop200LairLinear [22, 80, 443]
        { Port := 443, Protocol := "tcp", Status := StatusGrey } = true :=
  ⟨(isTop200Lair_eq_linear [22, 80, 443] _ (by decide)).trans (by decide), by decide⟩

/-- C14, at a concrete input: on a fresh host entry with an empty address list nothing is
flagged, `host.Addresses[0]` is evaluated for the debug message and `portCheck` panics with
an index out of range instead of returning a `recolor` value. -/
theorem portCheck_panics_without_address :
    (portCheck [22]
        { ID := "old", Tool := "", Issues := [],
          Hosts := [{ IPv4 := "10.0.0.5", Status := StatusGrey,
                      Services := [{ Port := 22, Protocol := "tcp", Status := StatusGrey }] }] }
        { Hosts := [{ Addresses := [],
                      Ports := [{ Protocol := "tcp", PortId := 22,
                                  State := { State := "open" } }] }] }).isNone = true := by
  decide


/-! ## Finding deduplicator: appended records -/

/-- The report items of one report host either append one record to an issue, built from
the host name and a title-matching item, for a host name that the issue did not have, or
leave the issue as it is. -/
theorem absorbItems_cases (host : nessus.ReportHost) (issue : lair.Issue) :
    (∃ item ∈ host.ReportItems, item.PluginName = issue.Title ∧
        host.Name ∉ issueAddrs issue ∧
        absorbItems host.Name host.ReportItems issue =
          { issue with Hosts := issue.Hosts ++
              [{ IPv4 := host.Name, Port := item.Port, Protocol := item.Protocol }] }) ∨
      absorbItems host.Name host.ReportItems issue = issue := by
  rw [absorbItems_eq]
  cases hf : host.ReportItems.find? (fun item => decide (item.PluginName = issue.Title)) with
  | none => exact Or.inr rfl
  | some item =>
    by_cases hm : host.Name ∈ issueAddrs issue
    · exact Or.inr (absorbHost_of_mem _ _ _ hm)
    · exact Or.inl ⟨item, List.mem_of_find?_eq_some hf, by simpa using List.find?_some hf, hm,
        absorbHost_of_not_mem _ _ _ hm⟩

/-- The records that the dedup loop appends to one issue. -/
theorem absorbReport_appended (hosts : List nessus.ReportHost) (issue : lair.Issue) :
    ∃ appended : List lair.IssueHost,
      absorbReport hosts issue = { issue with Hosts := issue.Hosts ++ appended } ∧
      (∀ record ∈ appended, ∃ host ∈ hosts, ∃ item ∈ host.ReportItems,
        item.PluginName = issue.Title ∧
        record = { IPv4 := host.Name, Port := item.Port, Protocol := item.Protocol }) ∧
      (∀ record ∈ appended, record.IPv4 ∉ issueAddrs issue) ∧
      (appended.map (·.IPv4)).Nodup := by
  induction hosts generalizing issue with
  | nil => exact ⟨[], by simp [absorbReport], by simp, by simp, by simp⟩
  | cons host rest ih =>
    have hstep : absorbReport (host :: rest) issue =
        absorbReport rest (absorbItems host.Name host.ReportItems issue) := rfl
    rcases absorbItems_cases host issue with ⟨item, hitem, htitle, hnew, heq⟩ | heq
    · obtain ⟨app, h1, h2, h3, h4⟩ := ih (absorbItems host.Name host.ReportItems issue)
      rw [heq] at h1 h2 h3
      have haddrs : issueAddrs { issue with Hosts := issue.Hosts ++
          [{ IPv4 := host.Name, Port := item.Port, Protocol := item.Protocol }] } =
          issueAddrs issue ++ [host.Name] := by simp [issueAddrs]
      refine ⟨{ IPv4 := host.Name, Port := item.Port, Protocol := item.Protocol } :: app,
        ?_, ?_, ?_, ?_⟩
      · rw [hstep, heq, h1]
        simp
      · intro record hr
        rcases List.mem_cons.1 hr with rfl | hr
        · exact ⟨host, List.mem_cons_self _ _, item, hitem, htitle, rfl⟩
        · obtain ⟨h, hh, it, hit, ht, he⟩ := h2 record hr
          exact ⟨h, List.mem_cons_of_mem _ hh, it, hit, ht, he⟩
      · intro record hr
        rcases List.mem_cons.1 hr with rfl | hr
        · exact hnew
        · intro hc
          exact h3 record hr (by rw [haddrs]; exact List.mem_append_left _ hc)
      · rw [List.map_cons, List.nodup_cons]
        refine ⟨?_, h4⟩
        intro hc
        obtain ⟨record, hr, he⟩ := List.mem_map.1 hc
        exact h3 record hr (by rw [haddrs, he]; simp)
    · obtain ⟨app, h1, h2, h3, h4⟩ := ih (absorbItems host.Name host.ReportItems issue)
      rw [heq] at h1 h2 h3
      refine ⟨app, by rw [hstep, heq, h1], ?_, h3, h4⟩
      intro record hr
      obtain ⟨h, hh, it, hit, ht, he⟩ := h2 record hr
      exact ⟨h, List.mem_cons_of_mem _ hh, it, hit, ht, he⟩

/-- C15: in the dedup loop of `makeJSONFile` every prior issue keeps its prior affected-host
records as a prefix of its resulting records; every appended record is (report host name,
item port, item protocol) of an observation with the title of the issue; no appended record
has the address of a prior record or of another appended record; hence pairwise distinct
prior addresses give pairwise distinct resulting addresses. -/
theorem makeJSONFile_dedup_appends (projectExport : lair.Project)
    (nessusData : nessus.NessusData) :
    (makeJSONFileDedup projectExport nessusData).1.Issues.length =
      projectExport.Issues.length ∧
    ∀ pair ∈ List.zip projectExport.Issues (makeJSONFileDedup projectExport nessusData).1.Issues,
      ∃ appended : List lair.IssueHost,
        pair.2 = { pair.1 with Hosts := pair.1.Hosts ++ appended } ∧
        (∀ record ∈ appended, ∃ host ∈ nessusData.Report.ReportHosts,
          ∃ item ∈ host.ReportItems, item.PluginName = pair.1.Title ∧
            record = { IPv4 := host.Name, Port := item.Port, Protocol := item.Protocol }) ∧
        (∀ record ∈ appended, record.IPv4 ∉ issueAddrs pair.1) ∧
        (appended.map (·.IPv4)).Nodup ∧
        ((issueAddrs pair.1).Nodup → (issueAddrs pair.2).Nodup) := by
  have hI : (makeJSONFileDedup projectExport nessusData).1.Issues =
      projectExport.Issues.map (absorbReport nessusData.Report.ReportHosts) := by
    simp only [makeJSONFileDedup, dedupHosts_fst]
  refine ⟨by rw [hI, List.length_map], ?_⟩
  intro pair hpair
  rw [hI] at hpair
  have hp := mem_zip_map_right _ _ pair hpair
  obtain ⟨app, h1, h2, h3, h4⟩ := absorbReport_appended nessusData.Report.ReportHosts pair.1
  refine ⟨app, hp.trans h1, h2, h3, h4, ?_⟩
  intro hnd
  rw [hp, h1]
  simp only [issueAddrs, List.map_append]
  rw [List.nodup_append]
  refine ⟨hnd, h4, ?_⟩
  intro a ha hb
  obtain ⟨record, hr, he⟩ := List.mem_map.1 hb
  exact h3 record hr (by rw [he]; exact ha)


/-! ## Finding deduplicator: the two merge targets -/

theorem vulnIssueLoop_of_no_title (hostName : String) (item : nessus.ReportItem)
    (issues : List lair.Issue) (slot : nessus.ReportItem)
    (h : item.PluginName ∉ issues.map (·.Title)) :
    vulnIssueLoop hostName item issues slot = slot := by
  induction issues with
  | nil => rfl
  | cons issue rest ih =>
    rw [List.map_cons, List.mem_cons, not_or] at h
    have h1 : ¬ issue.Title = item.PluginName := fun e => h.1 e.symm
    simp only [vulnIssueLoop, h1, if_false]
    exact ih h.2

/-- C16, at a concrete input: the prior issue "Outdated TLS" has a record for 10.0.0.5 only
and the report has the same title for 10.0.0.9; the dedup loop of `makeJSONFile` empties the
report item at position (0, 0), `sameVulnNewHostCheck` leaves it non-empty. -/
theorem dedup_targets_diverge :
    (issueTitles
        { ID := "old", Tool := "", Hosts := [],
          Issues := [{ Title := "Outdated TLS", Status := StatusGrey,
                       Hosts := [{ IPv4 := "10.0.0.5", Port := 443, Protocol := "tcp" }] }] }).Nodup ∧
    (makeJSONFileDedup
        { ID := "old", Tool := "", Hosts := [],
          Issues := [{ Title := "Outdated TLS", Status := StatusGrey,
                       Hosts := [{ IPv4 := "10.0.0.5", Port := 443, Protocol := "tcp" }] }] }
        { Report := { Name := "scan", ReportHosts :=
            [{ Name := "10.0.0.9", ReportItems :=
                [{ Port := 443, SvcName := "www", Protocol := "tcp", Severity := 2,
                   PluginID := "1", PluginName := "Outdated TLS" }] }] } }).2.Report.ReportHosts
      = [{ Name := "10.0.0.9", ReportItems := [nessus.ReportItem.empty] }] ∧
    (sameVulnNewHostCheck
        { ID := "old", Tool := "", Hosts := [],
          Issues := [{ Title := "Outdated TLS", Status := StatusGrey,
                       Hosts := [{ IPv4 := "10.0.0.5", Port := 443, Protocol := "tcp" }] }] }
        { Report := { Name := "scan", ReportHosts :=
            [{ Name := "10.0.0.9", ReportItems :=
                [{ Port := 443, SvcName := "www", Protocol := "tcp", Severity := 2,
                   PluginID := "1", PluginName := "Outdated TLS" }] }] } }).Report.ReportHosts
      = [{ Name := "10.0.0.9", ReportItems :=
            [{ Port := 443, SvcName := "www", Protocol := "tcp", Severity := 2,
               PluginID := "1", PluginName := "Outdated TLS" }] }] := by
  decide

theorem knownForHost_iff (previous : lair.Project) (hostName : String)
    (item : nessus.ReportItem) :
    knownForHost previous hostName item = true ↔
      ∃ issue ∈ previous.Issues,
        issue.Title = item.PluginName ∧ hostName ∈ issueAddrs issue := by
  simp [knownForHost]

/-- C16, amended: for a prior project with unique issue titles, both dedups keep the report
hosts and the item positions, and at every position (i, j): the dedup loop of `makeJSONFile`
leaves the item non-empty exactly when the original item is not the zero value and its title
is no prior title; `sameVulnNewHostCheck` leaves it non-empty exactly when the original item
is not the zero value and no prior issue with its title has a record for the report host.
So a position is non-empty after `sameVulnNewHostCheck` exactly when it is non-empty after
the `makeJSONFile` loop, or its original item is not the zero value, carries a prior title
and the issue of that title has no record for the report host; and a position left non-empty
by the `makeJSONFile` loop holds the same item after `sameVulnNewHostCheck`. -/
theorem dedup_targets_nonempty_exact (previous : lair.Project)
    (nessusData : nessus.NessusData) (hnd : (issueTitles previous).Nodup) :
    (makeJSONFileDedup previous nessusData).2.Report.ReportHosts =
      nessusData.Report.ReportHosts.map (residualHost (issueTitles previous)) ∧
    (sameVulnNewHostCheck previous nessusData).Report.ReportHosts =
      nessusData.Report.ReportHosts.map (fun host =>
        { host with ReportItems := host.ReportItems.map (vulnResidual previous host.Name) }) ∧
    ∀ host ∈ nessusData.Report.ReportHosts, ∀ item ∈ host.ReportItems,
      (residualItem (issueTitles previous) item ≠ nessus.ReportItem.empty ↔
        item ≠ nessus.ReportItem.empty ∧ item.PluginName ∉ issueTitles previous) ∧
      (vulnResidual previous host.Name item ≠ nessus.ReportItem.empty ↔
        item ≠ nessus.ReportItem.empty ∧
          ¬ ∃ issue ∈ previous.Issues,
            issue.Title = item.PluginName ∧ host.Name ∈ issueAddrs issue) ∧
      (vulnResidual previous host.Name item ≠ nessus.ReportItem.empty ↔
        residualItem (issueTitles previous) item ≠ nessus.ReportItem.empty ∨
          (item ≠ nessus.ReportItem.empty ∧ item.PluginName ∈ issueTitles previous ∧
            ¬ ∃ issue ∈ previous.Issues,
              issue.Title = item.PluginName ∧ host.Name ∈ issueAddrs issue)) ∧
      (residualItem (issueTitles previous) item ≠ nessus.ReportItem.empty →
        vulnResidual previous host.Name item = residualItem (issueTitles previous) item) := by
  have hmj : ∀ item : nessus.ReportItem,
      residualItem (issueTitles previous) item ≠ nessus.ReportItem.empty ↔
        item ≠ nessus.ReportItem.empty ∧ item.PluginName ∉ issueTitles previous := by
    intro item
    unfold residualItem
    by_cases hin : item.PluginName ∈ issueTitles previous
    · simp [hin]
    · simp [hin]
  have hsv : ∀ (hostName : String) (item : nessus.ReportItem),
      vulnResidual previous hostName item ≠ nessus.ReportItem.empty ↔
        item ≠ nessus.ReportItem.empty ∧
          ¬ ∃ issue ∈ previous.Issues,
            issue.Title = item.PluginName ∧ hostName ∈ issueAddrs issue := by
    intro hostName item
    rw [← knownForHost_iff]
    unfold vulnResidual
    cases hk : knownForHost previous hostName item with
    | false => simp
    | true => simp
  have hknown : ∀ (hostName : String) (item : nessus.ReportItem),
      (∃ issue ∈ previous.Issues,
        issue.Title = item.PluginName ∧ hostName ∈ issueAddrs issue) →
      item.PluginName ∈ issueTitles previous := by
    intro hostName item h
    obtain ⟨issue, hm, ht, -⟩ := h
    exact List.mem_map.2 ⟨issue, hm, ht⟩
  refine ⟨?_, ?_, ?_⟩
  · simp only [makeJSONFileDedup, dedupHosts_snd, issueTitles]
  · simp only [sameVulnNewHostCheck]
    apply List.map_congr_left
    intro host _
    congr 1
    apply List.map_congr_left
    intro item _
    rw [vulnIssueLoop_eq _ _ _ _ hnd]
    rfl
  · intro host _ item _
    refine ⟨hmj item, hsv host.Name item, ?_, ?_⟩
    · rw [hsv, hmj]
      constructor
      · intro h
        by_cases hin : item.PluginName ∈ issueTitles previous
        · exact Or.inr ⟨h.1, hin, h.2⟩
        · exact Or.inl ⟨h.1, hin⟩
      · intro h
        rcases h with h | h
        · exact ⟨h.1, fun hc => h.2 (hknown host.Name item hc)⟩
        · exact ⟨h.1, h.2.2⟩
    · intro hne
      have h := (hmj item).1 hne
      have hk : knownForHost previous host.Name item = false := by
        cases hk : knownForHost previous host.Name item with
        | false => rfl
        | true => exact absurd (hknown host.Name item ((knownForHost_iff _ _ _).1 hk)) h.2
      simp [vulnResidual, residualItem, hk, h.2]

/-- Witness for C16: the prior issue "Outdated TLS" has a record for 10.0.0.5; the report
has that title for 10.0.0.5 and for 10.0.0.9, and an unknown title for 10.0.0.9. -/
theorem dedup_targets_nonempty_exact_witness :
    (makeJSONFileDedup
        { ID := "old", Tool := "", Hosts := [],
          Issues := [{ Title := "Outdated TLS", Status := StatusGrey,
                       Hosts := [{ IPv4 := "10.0.0.5", Port := 443, Protocol := "tcp" }] }] }
        { Report := { Name := "scan", ReportHosts :=
            [{ Name := "10.0.0.5", ReportItems :=
                [{ Port := 443, SvcName := "www", Protocol := "tcp", Severity := 2,
                   PluginID := "1", PluginName := "Outdated TLS" }] },
             { Name := "10.0.0.9", ReportItems :=
                [{ Port := 443, SvcName := "www", Protocol := "tcp", Severity := 2,
                   PluginID := "1", PluginName := "Outdated TLS" },
                 { Port := 22, SvcName := "ssh", Protocol := "tcp", Severity := 1,
                   PluginID := "2", PluginName := "Weak SSH" }] }] } }).2.Report.ReportHosts
      = [{ Name := "10.0.0.5", ReportItems := [nessus.ReportItem.empty] },
         { Name := "10.0.0.9", ReportItems :=
            [nessus.ReportItem.empty,
             { Port := 22, SvcName := "ssh", Protocol := "tcp", Severity := 1,
               PluginID := "2", PluginName := "Weak SSH" }] }] ∧
    (sameVulnNewHostCheck
        { ID := "old", Tool := "", Hosts := [],
          Issues := [{ Title := "Outdated TLS", Status := StatusGrey,
                       Hosts := [{ IPv4 := "10.0.0.5", Port := 443, Protocol := "tcp" }] }] }
        { Report := { Name := "scan", ReportHosts :=
            [{ Name := "10.0.0.5", ReportItems :=
                [{ Port := 443, SvcName := "www", Protocol := "tcp", Severity := 2,
                   PluginID := "1", PluginName := "Outdated TLS" }] },
             { Name := "10.0.0.9", ReportItems :=
                [{ Port := 443, SvcName := "www", Protocol := "tcp", Severity := 2,
                   PluginID := "1", PluginName := "Outdated TLS" },
                 { Port := 22, SvcName := "ssh", Protocol := "tcp", Severity := 1,
                   PluginID := "2", PluginName := "Weak SSH" }] }] } }).Report.ReportHosts
      = [{ Name := "10.0.0.5", ReportItems := [nessus.ReportItem.empty] },
         { Name := "10.0.0.9", ReportItems :=
            [{ Port := 443, SvcName := "www", Protocol := "tcp", Severity := 2,
               PluginID := "1", PluginName := "Outdated TLS" },
             { Port := 22, SvcName := "ssh", Protocol := "tcp", Severity := 1,
               PluginID := "2", PluginName := "Weak SSH" }] }] :=
  ⟨(dedup_targets_nonempty_exact _ _ (by decide)).1.trans (by decide),
   (dedup_targets_nonempty_exact _ _ (by decide)).2.1.trans (by decide)⟩

/-! ## Port-set differ: provenance of `reco.hosts` and frame -/

theorem exists_host_of_recordedPorts (previous : lair.Project) (a : String)
    (h : recordedPorts previous a ≠ []) :
    ∃ host ∈ previous.Hosts, host.IPv4 = a ∧ host.Services ≠ [] := by
  obtain ⟨port, hp⟩ := List.exists_mem_of_ne_nil _ h
  simp only [recordedPorts, List.mem_flatMap, List.mem_filter, List.mem_map] at hp
  obtain ⟨host, ⟨hm, ha⟩, s, hs, -⟩ := hp
  exact ⟨host, hm, by simpa using ha, List.ne_nil_of_mem hs⟩

/-- C17: every address in the `recolor.hosts` that `portCheck` returns is the address of a
prior host with at least one recorded service and is an address of some fresh host entry;
an address with no prior record is never in `recolor.hosts`. -/
theorem portCheck_hosts_provenance (top200ports : List Int) (previous : lair.Project)
    (nmapData : nmap.NmapRun) (res : recolor × nmap.NmapRun)
    (hres : portCheck top200ports previous nmapData = some res) :
    (∀ a ∈ res.1.hosts,
      (∃ host ∈ previous.Hosts, host.IPv4 = a ∧ host.Services ≠ []) ∧
      ∃ entry ∈ nmapData.Hosts, ∃ address ∈ entry.Addresses, address.Addr = a) ∧
    ∀ a, (∀ host ∈ previous.Hosts, host.IPv4 ≠ a) → a ∉ res.1.hosts := by
  rw [portCheck_eq] at hres
  split at hres
  · injection hres with hres
    subst hres
    have key : ∀ a ∈ (recoAfter top200ports (previousPorts top200ports previous).1
        (previousPorts top200ports previous).2 nmapData.Hosts
        { hosts := [], service := fun _ => none }).hosts,
        (∃ host ∈ previous.Hosts, host.IPv4 = a ∧ host.Services ≠ []) ∧
        ∃ entry ∈ nmapData.Hosts, ∃ address ∈ entry.Addresses, address.Addr = a := by
      intro a hmem
      rcases recoAfter_hosts _ _ _ _ _ a hmem with h1 | ⟨entry, he, address, hm, hadr, old, hold, -⟩
      · simp at h1
      · refine ⟨?_, entry, he, address, hm, hadr⟩
        rw [previousPorts_all] at hold
        split at hold
        · cases hold
        · rename_i hne
          exact exists_host_of_recordedPorts previous a hne
    refine ⟨key, ?_⟩
    intro a hnew hmem
    obtain ⟨⟨host, hh, ha, -⟩, -⟩ := key a hmem
    exact hnew host hh ha
  · cases hres

/-- Witness for C17: host 10.0.0.5 with prior ports 22 and 443 and the new open port 8080,
which is not a significant port. -/
theorem portCheck_hosts_provenance_witness :
    ∃ res, portCheck [22]
        { ID := "old", Tool := "", Issues := [],
          Hosts := [{ IPv4 := "10.0.0.5", Status := StatusGrey,
                      Services := [{ Port := 22, Protocol := "tcp", Status := StatusGrey },
                                   { Port := 443, Protocol := "tcp", Status := StatusGrey }] }] }
        { Hosts := [{ Addresses := [{ Addr := "10.0.0.5", AddrType := "ipv4" }],
                      Ports := [{ Protocol := "tcp", PortId := 8080,
                                  State := { State := "open" } }] }] } = some res ∧
      res.1.hosts = ["10.0.0.5"] ∧ "172.16.0.1" ∉ res.1.hosts :=
  ⟨_, (portCheck_eq _ _ _).trans (if_pos (by decide)), by decide,
    (portCheck_hosts_provenance _ _ _ _
      ((portCheck_eq _ _ _).trans (if_pos (by decide)))).2 "172.16.0.1" (by decide)⟩

/-- C19: when every fresh host entry has at least one address, `portCheck` completes, leaves
the prior snapshot unchanged, keeps the number of fresh host entries, and leaves each fresh
host entry either identical to the original entry or equal to the empty host. -/
theorem portCheck_frame (top200ports : List Int) (previous : lair.Project)
    (nmapData : nmap.NmapRun) (hadr : ∀ host ∈ nmapData.Hosts, host.Addresses ≠ []) :
    ∃ res, portCheckRun top200ports (previous, nmapData) = some res ∧
      res.2.1 = previous ∧
      res.2.2.Hosts.length = nmapData.Hosts.length ∧
      List.Forall₂ (fun (before after : nmap.Host) => after = before ∨ after = nmap.Host.empty)
        nmapData.Hosts res.2.2.Hosts := by
  unfold portCheckRun
  rw [portCheck_eq, if_pos hadr]
  refine ⟨_, rfl, rfl, by simp, ?_⟩
  simp only [Option.map_some', List.forall₂_map_right_iff]
  apply List.forall₂_same.2
  intro host _
  unfold residualEntry
  split
  · exact Or.inl rfl
  · exact Or.inr rfl

/-- Witness for C19: one fresh entry whose ports are all known, replaced by the empty host,
and one entry for an address without prior record, kept. -/
theorem portCheck_frame_witness :
    ∃ res, portCheckRun [22]
        ({ ID := "old", Tool := "", Issues := [],
           Hosts := [{ IPv4 := "10.0.0.5", Status := StatusGrey,
                       Services := [{ Port := 22, Protocol := "tcp", Status := StatusGrey }] }] },
         { Hosts := [{ Addresses := [{ Addr := "10.0.0.5", AddrType := "ipv4" }],
                       Ports := [{ Protocol := "tcp", PortId := 22,
                                   State := { State := "open" } }] },
                     { Addresses := [{ Addr := "172.16.0.1", AddrType := "ipv4" }],
                       Ports := [{ Protocol := "tcp", PortId := 80,
                                   State := { State := "open" } }] }] }) = some res ∧
      res.2.2.Hosts.length = 2 :=
  (portCheck_frame [22] _ _ (by decide)).elim
    fun res h => ⟨res, h.1, h.2.2.1⟩

end DroneAsm
